import Mathlib

/-!
Verification development for the water-quality report reconciliation scripts
(`analyze_reports.py`, `cross_verify.py`).  Python strings are modelled as
`String`/`List Char`, Python floats as the exact rational value of the parsed
literal (an explicit fraction `PQ`), `None` as `Option`/an explicit variant.  All definitions are direct shallow embeddings of the
Python source; the few spots where binary floating point or Python's
shortest-round-trip float printing cannot be mirrored exactly are marked in
the doc comments.
-/

namespace WaterVerif

/-- Python `str.isspace` / regex `\s` character class (Unicode whitespace). -/
def pyIsSpace (c : Char) : Bool :=
  c.toNat = 0x20 ∨ c.toNat = 0x09 ∨ c.toNat = 0x0a ∨ c.toNat = 0x0d ∨
  c.toNat = 0x0b ∨ c.toNat = 0x0c ∨
  (0x1c ≤ c.toNat ∧ c.toNat ≤ 0x1f) ∨ c.toNat = 0x85 ∨ c.toNat = 0xa0 ∨
  c.toNat = 0x1680 ∨ (0x2000 ≤ c.toNat ∧ c.toNat ≤ 0x200a) ∨
  c.toNat = 0x2028 ∨ c.toNat = 0x2029 ∨ c.toNat = 0x202f ∨ c.toNat = 0x205f ∨
  c.toNat = 0x3000

/-- Printable ASCII, the regex class `[\x21-\x7e]` used by `normalize_method`. -/
def printAscii (c : Char) : Bool := 0x21 ≤ c.toNat ∧ c.toNat ≤ 0x7e

/-- CJK unified ideographs, the regex class `[一-鿿]`. -/
def isCJK (c : Char) : Bool := 0x4e00 ≤ c.toNat ∧ c.toNat ≤ 0x9fff

/-- ASCII decimal digit. -/
def isDigitCh (c : Char) : Bool := '0' ≤ c ∧ c ≤ '9'

/-- Python `str.strip()` on a character list. -/
def pyStripL (l : List Char) : List Char :=
  ((l.dropWhile pyIsSpace).reverse.dropWhile pyIsSpace).reverse

/-- Python `str.strip()`. -/
def pyStrip (s : String) : String := ⟨pyStripL s.data⟩

/-- `str.replace(a, b)` for single-character `a`, `b` (a character map). -/
def mapChar (a b : Char) (l : List Char) : List Char :=
  l.map fun c => if c = a then b else c

/-- `str.replace(a, '')` for a single character `a`. -/
def delChar (a : Char) (l : List Char) : List Char := l.filter (· ≠ a)

/-- List prefix test (used to implement Python substring search). -/
def startsL : List Char → List Char → Bool
  | [], _ => true
  | _ :: _, [] => false
  | a :: as, b :: bs => a = b && startsL as bs

/-- Python `needle in hay` substring test, on lists. -/
def subL (needle : List Char) : List Char → Bool
  | [] => needle.isEmpty
  | c :: t => startsL needle (c :: t) || subL needle t

/-- Python `needle in hay` substring test, on strings. -/
def pyIn (needle hay : String) : Bool := subL needle.data hay.data

/-- Python `s.startswith(p)`. -/
def pyStarts (s p : String) : Bool := startsL p.data s.data

/-- Python `str.replace(pat, rep)` (all non-overlapping occurrences, left to
right), driven by a fuel argument so that it reduces structurally; the fuel
is always instantiated with the length of the list, which suffices because
every step consumes at least one input character.  The empty pattern is
returned unchanged (never used by the source). -/
def replaceLAux (pat rep : List Char) : Nat → List Char → List Char
  | _, [] => []
  | 0, l => l
  | fuel + 1, c :: t =>
    if !pat.isEmpty && startsL pat (c :: t) then
      rep ++ replaceLAux pat rep fuel (List.drop (pat.length - 1) t)
    else
      c :: replaceLAux pat rep fuel t

/-- Python `str.replace(pat, rep)` on strings. -/
def pyReplace (s pat rep : String) : String :=
  ⟨replaceLAux pat.data rep.data s.data.length s.data⟩

/-- Python `str.replace(a, b)` for a single-character pattern, on strings. -/
def replCh (s : String) (a b : Char) : String := ⟨mapChar a b s.data⟩

/-- Python `str.replace(a, '')` for a single-character pattern, on strings. -/
def delCh (s : String) (a : Char) : String := ⟨delChar a s.data⟩

/-- `re.sub(r'[、，,]+$', '', s)`: strip the trailing run of list separators. -/
def stripTrailSeps (s : String) : String :=
  ⟨(s.data.reverse.dropWhile (fun c => c = '、' ∨ c = '，' ∨ c = ',')).reverse⟩

/-- Value of a digit string (most significant first). -/
def digitsVal (l : List Char) : Nat :=
  l.foldl (fun a c => 10 * a + (c.toNat - 48)) 0

/-- An exact rational as an unnormalized fraction (`num / den`, `den > 0` for
every value the embedding builds).  Python floats are modelled by the exact
rational the literal denotes; all comparisons the scripts perform on floats
are done here by cross-multiplication with `Int`/`Nat` arithmetic, so that
every definition evaluates inside the kernel. -/
structure PQ where
  num : Int
  den : Nat
deriving DecidableEq

/-- Interpretation of a `PQ` fraction as a rational number. -/
def PQ.toRat (x : PQ) : ℚ := (x.num : ℚ) / (x.den : ℚ)

/-- `|x - y| < c / cd`, by cross-multiplication (sound when all
denominators are positive). -/
def absSubLt (x y : PQ) (c : Int) (cd : Nat) : Bool :=
  ((x.num * y.den - y.num * x.den).natAbs : Int) * cd < c * (x.den * y.den)

/-- `0 < x`, by sign of the numerator (sound when `x.den > 0`). -/
def PQ.isPos (x : PQ) : Bool := 0 < x.num

/-- `y > x * (a / b)`, by cross-multiplication (sound for positive
denominators). -/
def gtMul (y x : PQ) (a : Int) (b : Nat) : Bool :=
  y.num * x.den * b > x.num * a * y.den

/-- Exponent tail of a Python float literal, as a pair
(power of ten to multiply, power of ten to divide). -/
def parseExpTail : List Char → Option (Nat × Nat)
  | [] => some (0, 0)
  | c :: t =>
    if c = 'e' ∨ c = 'E' then
      let (neg, d) : Bool × List Char :=
        match t with
        | '+' :: u => (false, u)
        | '-' :: u => (true, u)
        | u => (false, u)
      if !d.isEmpty && d.all isDigitCh then
        some (if neg then (0, digitsVal d) else (digitsVal d, 0))
      else none
    else none

/-- Python `float(s)` on decimal/exponent literals, modelled exactly (no
rounding to binary; `inf`/`nan`/underscores are rejected, which no
comparison in the source depends on). -/
def parseFloat? (s : String) : Option PQ :=
  let l := pyStripL s.data
  let (neg, l1) : Bool × List Char :=
    match l with
    | '+' :: t => (false, t)
    | '-' :: t => (true, t)
    | t => (false, t)
  let ip := l1.takeWhile isDigitCh
  let r1 := l1.dropWhile isDigitCh
  let (fp, r2) : List Char × List Char :=
    match r1 with
    | '.' :: t => (t.takeWhile isDigitCh, t.dropWhile isDigitCh)
    | _ => ([], r1)
  if ip.isEmpty && fp.isEmpty then none
  else
    (parseExpTail r2).map fun e =>
      let num0 : Int := (digitsVal ip * 10 ^ fp.length + digitsVal fp : Nat)
      ⟨(if neg then -num0 else num0) * 10 ^ e.1, 10 ^ fp.length * 10 ^ e.2⟩

/-- Python `(parseFloat? s).map PQ.toRat`: the rational value of a float
literal, used to state tolerance properties over `ℚ`. -/
def parseQ? (s : String) : Option ℚ := (parseFloat? s).map PQ.toRat

/-- Truncation toward zero, Python `int(float_value)` (`Int.tdiv` is
T-division). -/
def truncPQ (x : PQ) : Int := Int.tdiv x.num x.den

/-- Whether the value is integral (Python `value == int(value)`). -/
def PQ.isInt (x : PQ) : Bool := x.num % (x.den : Int) == 0

/-- Left-pad a digit string with zeros to the given width. -/
def padZeros (n : Nat) (s : String) : String :=
  ⟨List.replicate (n - s.data.length) '0' ++ s.data⟩

/-- Decimal rendering of a rational whose decimal expansion terminates
(minimal number of decimals); falls back to `num/den` notation otherwise.
This is the shallow counterpart of Python `str(float)` (shortest
round-trip printing), and agrees with it on every exactly-decimal value the
scripts handle. -/
def ratStr (x : PQ) : String :=
  if x.isInt then toString (Int.tdiv x.num x.den)
  else
    match (List.range 60).find? (fun n => (x.num * 10 ^ n) % (x.den : Int) == 0) with
    | some n =>
      let m := Int.tdiv (x.num * 10 ^ n) x.den
      let sign := if m < 0 then "-" else ""
      let a := m.natAbs
      sign ++ toString (a / 10 ^ n) ++ "." ++ padZeros n (toString (a % 10 ^ n))
    | none => toString x.num ++ "/" ++ toString x.den

/-- Fixed-decimals rendering, Python `f-string` `:.nf` formatting; the tie
case is modelled as round-half-away-from-zero (Python rounds the underlying
binary double half-to-even, which differs only on exact decimal ties that no
rule in the scripts depends on). -/
def renderFixed (x : PQ) (n : Nat) : String :=
  let sNum := x.num * 10 ^ n
  let m : Int :=
    if 0 ≤ sNum then Int.tdiv (2 * sNum + x.den) (2 * x.den)
    else -Int.tdiv (2 * (-sNum) + x.den) (2 * x.den)
  let sign := if m < 0 then "-" else ""
  let a := m.natAbs
  sign ++ toString (a / 10 ^ n) ++ "." ++ padZeros n (toString (a % 10 ^ n))

/-- Scan to just past the first closing parenthesis, failing on a newline:
the tail of one match of the non-greedy regex `[\(（].*?[\)）]` (regex `.`
does not cross `\n`). -/
def scanCloseNG : List Char → Option (List Char)
  | [] => none
  | c :: t =>
    if c = ')' ∨ c = '）' then some t
    else if c = '\n' then none
    else scanCloseNG t

/-- Scan to just past the first closing parenthesis (for the regex
`[\(（][^)）]*[\)）]`, whose character class admits newlines). -/
def scanCloseAll : List Char → Option (List Char)
  | [] => none
  | c :: t => if c = ')' ∨ c = '）' then some t else scanCloseAll t

/-- One pass of `re.sub` deleting parenthesized groups, parameterized by the
closing-parenthesis scanner; fuel-driven (fuel = input length suffices). -/
def stripParGroupsAux (ng : Bool) : Nat → List Char → List Char
  | _, [] => []
  | 0, l => l
  | fuel + 1, c :: t =>
    if c = '(' ∨ c = '（' then
      match (if ng then scanCloseNG t else scanCloseAll t) with
      | some rest => stripParGroupsAux ng fuel rest
      | none => c :: stripParGroupsAux ng fuel t
    else c :: stripParGroupsAux ng fuel t

/-- `re.sub(r'[\(（].*?[\)）]', '', s).strip()` — parenthetical qualifiers
removed (non-greedy, `.` not crossing newlines), then stripped. -/
def stripParensNG (s : String) : String :=
  pyStrip ⟨stripParGroupsAux true s.data.length s.data⟩

/-- `re.sub(r'[\(（][^)）]*[\)）]', '', s)` — parenthesized groups removed
(character-class form, newlines allowed inside the group). -/
def stripParensAll (s : String) : String :=
  ⟨stripParGroupsAux false s.data.length s.data⟩

/-- Python `s.split(sep)` for a single-character separator. -/
def splitOnCh (sep : Char) : List Char → List (List Char)
  | [] => [[]]
  | c :: t =>
    if c = sep then [] :: splitOnCh sep t
    else
      match splitOnCh sep t with
      | h :: r => (c :: h) :: r
      | [] => [[c]]

/-- Python `'、'.join(parts)`-style separator join. -/
def joinSep (sep : String) : List String → String
  | [] => ""
  | [x] => x
  | x :: t => x ++ sep ++ joinSep sep t

/-- Insertion-ordered association-list update: replace the value at the
first occurrence of the key, or append a fresh entry at the end — the
behavior of assignment into a Python `dict` / `defaultdict`. -/
def alUpdate {K V : Type} [DecidableEq K] (k : K) (f : Option V → V) :
    List (K × V) → List (K × V)
  | [] => [(k, f none)]
  | (k2, v2) :: t =>
    if k = k2 then (k, f (some v2)) :: t else (k2, v2) :: alUpdate k f t

/-- First value stored under a key (Python `dict` lookup). -/
def alGet {K V : Type} [DecidableEq K] (k : K) : List (K × V) → Option V
  | [] => none
  | (k2, v2) :: t => if k = k2 then some v2 else alGet k t

/-- Every whitespace character of the list is a plain space (holds of every
output of `collapseWs` and is preserved by the later stages of
`normalize_method`). -/
def wsOk (l : List Char) : Prop := ∀ c ∈ l, pyIsSpace c = true → c = ' '

/-- No two adjacent whitespace characters. -/
def noAdjWs (l : List Char) : Prop :=
  List.Chain' (fun a b => ¬(pyIsSpace a = true ∧ pyIsSpace b = true)) l

/-- No occurrence of printable ASCII, whitespace, CJK as three consecutive
characters: the first boundary regex of `normalize_method` finds nothing. -/
def sf1 : List Char → Prop
  | a :: s :: b :: t =>
    ¬(printAscii a = true ∧ pyIsSpace s = true ∧ isCJK b = true) ∧ sf1 (s :: b :: t)
  | _ => True

/-- No occurrence of CJK, whitespace, printable ASCII as three consecutive
characters: the second boundary regex of `normalize_method` finds nothing. -/
def sf2 : List Char → Prop
  | a :: s :: b :: t =>
    ¬(isCJK a = true ∧ pyIsSpace s = true ∧ printAscii b = true) ∧ sf2 (s :: b :: t)
  | _ => True

/-- Python `x or y` on optional strings (`''` is falsy). -/
def pyOrStr : Option String → Option String → Option String
  | some s, o => if s = "" then o else some s
  | none, o => o

end WaterVerif

namespace AnalyzeReports

open WaterVerif

/-- `analyze_reports.vals_match`: strict comparison of an original-record
value with a report value.  Trailing list separators are stripped, the
full-width `＜` is normalized, then the comparison is exact string equality
plus the `0`/`未检出` equivalence — there is no numeric-tolerance branch. -/
def vals_match (orig_val report_val : Option String) : Bool :=
  match orig_val, report_val with
  | none, _ => true
  | _, none => true
  | some ov, some rv =>
    let o := replCh (stripTrailSeps (pyStrip ov)) '＜' '<'
    let r := replCh (stripTrailSeps (pyStrip rv)) '＜' '<'
    if o = r then true
    else if (o = "0" ∧ (r = "未检出" ∨ r = "0")) ∨ (r = "0" ∧ (o = "未检出" ∨ o = "0"))
      then true
    else false

/-- The first two lines of `analyze_reports.count_digits`: strip whitespace,
then drop one leading `-` or `+`. -/
def signStripped (value_str : String) : String :=
  let s := pyStrip value_str
  if pyStarts s "-" ∨ pyStarts s "+" then ⟨s.data.drop 1⟩ else s

/-- `analyze_reports.count_digits`: strip whitespace, drop one leading sign,
remove every `.`, return the length of what remains. -/
def count_digits (value_str : String) : Nat :=
  (delChar '.' (signStripped value_str).data).length

/-- `analyze_reports.NAME_ALIAS`: fixed mapping from original-record naming
to the report-side phrasing. -/
def NAME_ALIAS : List (String × String) :=
  [("高锰酸盐指数", "高锰酸盐指数(以O2计)"),
   ("溶解氧", "溶解氧"), ("化学需氧量", "化学需氧量(COD)"),
   ("五日生化需氧量", "五日生化需氧量(BOD5)"),
   ("挥发酚", "挥发酚类(以苯酚计)"),
   ("六 价 铬", "铬(六价)"), ("六价铬", "铬(六价)"),
   ("总硬度", "总硬度(以CaCO3计)"),
   ("氨", "氨(以N计)"), ("氨(以N计)", "氨氮(NH3-N)"), ("硝酸盐", "硝酸盐(以N计)"),
   ("总α", "总α放射性"), ("总a", "总α放射性"), ("总β", "总β放射性"),
   ("总磷", "总磷(以P计)"), ("总氮", "总氮(以N计)"), ("氨氮", "氨氮(NH3-N)"),
   ("阴离子表面活性剂", "阴离子合成洗涤剂")]

/-- `analyze_reports.CONFUSABLE_PARAMS`: (short name, disqualifying keyword)
pairs that must not be related by substring matching. -/
def CONFUSABLE_PARAMS : List (String × String) := [("锰", "高锰酸盐")]

/-- `analyze_reports.is_false_substring_match`: after stripping
parentheticals from both names, reject the pair if one side equals a
confusable short name while the other contains its long keyword. -/
def is_false_substring_match (name_a name_b : String) : Bool :=
  let clean_a := stripParensNG name_a
  let clean_b := stripParensNG name_b
  CONFUSABLE_PARAMS.any fun p =>
    (clean_a = p.1 ∧ pyIn p.2 clean_b) ∨ (clean_b = p.1 ∧ pyIn p.2 clean_a)

/-- A row of a report's result pages (`analyze_reports` test-item dict). -/
structure ReportItem where
  seq : Int
  name : String
  unit : String
  result : String
  standard : String
  method : String
deriving DecidableEq

/-- `analyze_reports.find_matching_report_item`: exact match, then
alias-table lookup, then guarded substring matching (directly and after
stripping parentheticals, the latter requiring the stripped original name to
have length above one). -/
def find_matching_report_item (test_items : List ReportItem) (orig_name : String) :
    Option ReportItem :=
  match test_items.find? (fun it => it.name = orig_name) with
  | some it => some it
  | none =>
    match
      (match alGet orig_name NAME_ALIAS with
       | some al => test_items.find? (fun it => it.name = al)
       | none => none) with
    | some it => some it
    | none =>
      test_items.find? fun it =>
        ((pyIn orig_name it.name ∨ pyIn it.name orig_name) ∧
          ¬is_false_substring_match orig_name it.name) ∨
        (let clean_o := stripParensNG orig_name
         let clean_i := stripParensNG it.name
         clean_o ≠ "" ∧ clean_i ≠ "" ∧ clean_o.data.length > 1 ∧
          (pyIn clean_o clean_i ∨ pyIn clean_i clean_o) ∧
          ¬is_false_substring_match orig_name it.name)

/-- A row of the sample registry (first sheet of the original-record file). -/
structure RegEntry where
  seq : String
  company : String
  description : String
  sampling_code : String
  sample_id : String
deriving DecidableEq

/-- `analyze_reports.classify_sample_water_type`: first-match-wins keyword
scan over the sample description. -/
def classify_sample_water_type (desc : String) : String :=
  if pyIn "二次供水" desc then "二次供水"
  else if pyIn "农饮水" desc ∨ pyIn "农村" desc then "农饮水"
  else if pyIn "管网末梢" desc then "管网末梢水"
  else if pyIn "管网" desc then "管网水"
  else if pyIn "出厂水" desc then "出厂水"
  else if pyIn "原水" desc then "原水"
  else "未知"

/-- `analyze_reports.extract_plant_from_desc`: delete the water-type tags,
delete parenthesized groups, strip. -/
def extract_plant_from_desc (desc : String) : String :=
  let s := ["出厂水", "管网末梢水", "管网水", "原水", "农饮水", "二次供水"].foldl
    (fun acc tag => pyReplace acc tag "") desc
  pyStrip (stripParensAll s)

/-- Description of a sample id in the registry (the sample id itself when
absent), as built for the duplicate-value message. -/
def descOf (registry : List RegEntry) (sid : String) : String :=
  match registry.find? (fun e => e.sample_id = sid) with
  | some e => e.description
  | none => sid

/-- Water type recorded for a sample id, via its registry description. -/
def waterTypeOf (registry : List RegEntry) (sid : String) : String :=
  classify_sample_water_type (descOf registry sid)

/-- Per-sample test data extracted from the original-record file:
`sample_id → (item name → raw value string)`, insertion-ordered as Python
dicts are. -/
def TestData : Type := List (String × List (String × String))

/-- Value-qualification filter of the duplicate-value rule (rule 7 of
`check_original_records`): not below-detection-limit, not a non-detect/zero
token, parses as a float, and carries at least three decimals. -/
def dupQualifies (val : String) : Bool :=
  ¬pyStarts val "<" ∧ ¬pyStarts val "＜" ∧
  ¬(val = "未检出" ∨ val = "无" ∨ val = "0") ∧
  (parseFloat? val).isSome ∧ pyIn "." val ∧
  ((splitOnCh '.' val.data).getD 1 []).length ≥ 3

/-- One `item_val_samples[name][val].append(sid)` step of the
duplicate-value rule. -/
def dupStep (m : List (String × List (String × List String)))
    (sid name val : String) : List (String × List (String × List String)) :=
  alUpdate name
    (fun inner => alUpdate val (fun sids => sids.getD [] ++ [sid]) (inner.getD []))
    m

/-- The `item_val_samples` nested dict of the duplicate-value rule: group
qualifying values of W-class samples by item name, then by value, keeping
sample insertion order. -/
def dupMap (d : TestData) : List (String × List (String × List String)) :=
  d.foldl
    (fun m p =>
      if pyStarts p.1 "W" then
        p.2.foldl (fun m2 nv => if dupQualifies nv.2 then dupStep m2 p.1 nv.1 nv.2 else m2) m
      else m)
    []

/-- The sample list stored in the nested duplicate map under `(n, v)`
(empty when either key is absent). -/
def dupVal (m : List (String × List (String × List String))) (n v : String) :
    List String :=
  (alGet v ((alGet n m).getD [])).getD []

/-- The groups the duplicate-value rule fires on: every `(name, value)` with
four or more collected samples, in dict iteration order. -/
def dupGroups (d : TestData) : List (String × String × List String) :=
  (dupMap d).flatMap fun p =>
    p.2.filterMap fun q =>
      if 4 ≤ q.2.length then some (p.1, q.1, q.2) else none

/-- Message text of one duplicate-value issue: the count and the
descriptions of the first five involved samples (with a trailing ellipsis
when more than five). -/
def dupMessage (registry : List RegEntry) (g : String × String × List String) : String :=
  let descs := (g.2.2.take 5).map (descOf registry)
  "项目「" ++ g.1 ++ "」有 " ++ toString g.2.2.length ++ " 个样品结果完全相同(" ++
    g.2.1 ++ ")，涉及：" ++ joinSep "、" descs ++
    (if g.2.2.length > 5 then "..." else "") ++ "，请确认是否录入错误"

/-- Rule 7 of `analyze_reports.check_original_records` (duplicate-value
detection): one issue per value shared by at least four W-class samples. -/
def check_duplicate_values (registry : List RegEntry) (d : TestData) : List String :=
  (dupGroups d).map (dupMessage registry)

/-- The samples the duplicate-value rule collects for item `n` and value
`v`: W-class samples whose qualifying items contain the pair, with one
occurrence per stored pair (reference characterization of `dupMap`). -/
def dupCollect (d : TestData) (n v : String) : List String :=
  d.flatMap fun p =>
    if pyStarts p.1 "W" then
      List.replicate (p.2.countP fun nv => nv.1 == n && nv.2 == v && dupQualifies nv.2) p.1
    else []

/-- The plant grouping of `check_original_records`: for W-class registry
entries with a recognized water type and a non-empty plant name,
`plant → (water type → sample id)`, later assignments overwriting earlier
ones as in Python dicts. -/
def plantSamples (registry : List RegEntry) : List (String × List (String × String)) :=
  registry.foldl
    (fun m e =>
      if pyStarts e.sample_id "W" then
        let wtype := classify_sample_water_type e.description
        let plant := extract_plant_from_desc e.description
        if plant ≠ "" ∧ wtype ≠ "未知" then
          alUpdate plant (fun inner => alUpdate wtype (fun _ => e.sample_id) (inner.getD [])) m
        else m
      else m)
    []

/-- Core of rule 4 of `check_original_records` for one plant and one
chlorine item: parse both values with `<` stripped and flag when the
distribution value exceeds 1.1 times the effluent value (both positive). -/
def chlorineCheckOne (plant cl ccRaw gwRaw : String) : List String :=
  match parseFloat? (delCh ccRaw '<'), parseFloat? (delCh gwRaw '<') with
  | some ccv, some gwv =>
    if gtMul gwv ccv 11 10 ∧ gwv.isPos ∧ ccv.isPos then
      [plant ++ " 管网水" ++ cl ++ "(" ++ ratStr gwv ++ ")高于出厂水(" ++ ratStr ccv ++
        ")，需确认"]
    else []
  | _, _ => []

/-- Rule 4 of `analyze_reports.check_original_records` (disinfectant-residual
ordering): for every plant with an effluent sample and a distribution (or
terminus) sample, check `游离氯` and `二氧化氯`. -/
def chlorineIssues (registry : List RegEntry) (d : TestData) : List String :=
  (plantSamples registry).flatMap fun p =>
    let cc? := alGet "出厂水" p.2
    let gw? := pyOrStr (alGet "管网水" p.2) (alGet "管网末梢水" p.2)
    match cc?, gw? with
    | some cc, some gw =>
      if cc ≠ "" ∧ gw ≠ "" then
        let cc_data := (alGet cc d).getD []
        let gw_data := (alGet gw d).getD []
        ["游离氯", "二氧化氯"].flatMap fun cl =>
          chlorineCheckOne p.1 cl ((alGet cl cc_data).getD "") ((alGet cl gw_data).getD "")
      else []
    | _, _ => []

/-- `re.sub(r'\s+', ' ', s)`: collapse every maximal whitespace run to a
single space.  The Boolean state records whether the scanner is inside a
run. -/
def collapseWsAux : Bool → List Char → List Char
  | _, [] => []
  | inRun, c :: t =>
    if pyIsSpace c then
      if inRun then collapseWsAux true t else ' ' :: collapseWsAux true t
    else c :: collapseWsAux false t

/-- `re.sub(r'\s+', ' ', s)`. -/
def collapseWs (l : List Char) : List Char := collapseWsAux false l

/-- `re.sub(r'(?<=[\x21-\x7e])\s+(?=[一-鿿])', '', s)`: delete every
maximal whitespace run preceded by printable ASCII and followed by a CJK
character (the lookaround characters are kept, and scanning resumes at the
following character, exactly as `re.sub` does). -/
def headIs (p : Char → Bool) : List Char → Bool
  | b :: _ => p b
  | [] => false

def rmB1 : List Char → List Char
  | [] => []
  | a :: rest =>
    if printAscii a && !(rest.takeWhile pyIsSpace).isEmpty &&
        headIs isCJK (rest.dropWhile pyIsSpace) then
      a :: rmB1 (rest.dropWhile pyIsSpace)
    else a :: rmB1 rest
termination_by l => l.length
decreasing_by
  · simpa using Nat.lt_succ_of_le (List.Sublist.length_le (List.dropWhile_sublist pyIsSpace))
  · simp

/-- `re.sub(r'(?<=[一-鿿])\s+(?=[\x21-\x7e])', '', s)`: the mirror
image of `rmB1` (CJK before, printable ASCII after). -/
def rmB2 : List Char → List Char
  | [] => []
  | a :: rest =>
    if isCJK a && !(rest.takeWhile pyIsSpace).isEmpty &&
        headIs printAscii (rest.dropWhile pyIsSpace) then
      a :: rmB2 (rest.dropWhile pyIsSpace)
    else a :: rmB2 rest
termination_by l => l.length
decreasing_by
  · simpa using Nat.lt_succ_of_le (List.Sublist.length_le (List.dropWhile_sublist pyIsSpace))
  · simp

/-- `analyze_reports.normalize_method`: strip; `\n`→space, drop `\r`,
full-width space→space; collapse whitespace runs; normalize full-width
punctuation; delete whitespace at ASCII/CJK boundaries; strip. -/
def normalize_method (method_str : String) : String :=
  let s0 := pyStripL method_str.data
  let s1 := mapChar '\n' ' ' s0
  let s2 := delChar '\r' s1
  let s3 := mapChar '　' ' ' s2
  let s4 := collapseWs s3
  let s5 := mapChar '（' '(' s4
  let s6 := mapChar '）' ')' s5
  let s7 := mapChar '，' ',' s6
  let s8 := mapChar '：' ':' s7
  let s9 := mapChar '；' ';' s8
  let s10 := mapChar '、' ',' s9
  let s11 := rmB1 s10
  let s12 := rmB2 s11
  ⟨pyStripL s12⟩

/-- A spreadsheet cell value as `openpyxl` hands it to the scripts. -/
inductive PyVal where
  | pnone
  | pstr (s : String)
  | pnum (q : PQ)
deriving DecidableEq

/-- A cell: its value and its Excel number format. -/
structure Cell where
  val : PyVal
  fmt : Option String
deriving DecidableEq

/-- A sheet row (column 1 of the source is index 0 here). -/
abbrev Row := List Cell

/-- A sheet: a list of rows. -/
abbrev Sheet := List Row

/-- Cell at a column index; out-of-range reads give an empty cell, as
`openpyxl` yields `None` for untouched cells. -/
def cellAt (row : Row) (i : Nat) : Cell := row.getD i ⟨.pnone, none⟩

/-- Python `str(value)` on a cell value (floats printed as their exact
decimal value, see `ratStr`). -/
def pyStrVal : PyVal → String
  | .pnone => "None"
  | .pstr s => s
  | .pnum q => ratStr q

/-- Python `float(str(value))`: on a numeric cell `str` round-trips the
value, on text the literal is parsed, on `None` a `ValueError` (here
`none`). -/
def pyFloatOfVal : PyVal → Option PQ
  | .pnum q => some q
  | .pstr s => parseFloat? s
  | .pnone => none

/-- Python truthiness of a cell value. -/
def pyTruthy : PyVal → Bool
  | .pnone => false
  | .pstr s => s ≠ ""
  | .pnum q => q.num ≠ 0

/-- Python `str(value or '')`. -/
def pyStrOrEmpty (v : PyVal) : String := if pyTruthy v then pyStrVal v else ""

/-- `analyze_reports.format_cell_number`: strings stripped; numbers rendered
with the decimal count demanded by the cell's number format when one is
given, integral values as integers, anything else as the plain value. -/
def formatCellNumber (v : PyVal) (fmt : Option String) : String :=
  match v with
  | .pnone => ""
  | .pstr s => pyStrip s
  | .pnum q =>
    let byFmt : Option String :=
      match fmt with
      | some f =>
        if f ≠ "General" ∧ f ≠ "@" ∧ f ≠ "" ∧ f ≠ "0" ∧ pyIn "." f then
          let after : List Char := (splitOnCh '.' f.data).getLastD []
          let run := after.takeWhile fun c => c = '0' ∨ c = '#' ∨ c = '?'
          if run.length > 0 then some (renderFixed q run.length) else none
        else none
      | none => none
    match byFmt with
    | some s => s
    | none =>
      if q.isInt ∧ (truncPQ q).natAbs < 10 ^ 10 then toString (truncPQ q) else ratStr q

/-- One row of a result sheet, as `read_xlsx_report_info` consumes it: the
row yields a `ReportItem` exactly when columns 1 and 2 are non-`None`,
column 1 parses as a float whose integer truncation lies in `[1, 100]`, and
column 2 is truthy. -/
def rowItem (row : Row) : Option ReportItem :=
  let a := (cellAt row 0).val
  let b := (cellAt row 1).val
  let d := (cellAt row 3).val
  if a ≠ PyVal.pnone ∧ b ≠ PyVal.pnone then
    match pyFloatOfVal a with
    | some q =>
      let seq := truncPQ q
      if 1 ≤ seq ∧ seq ≤ 100 ∧ pyTruthy b then
        some
          { seq := seq
            name := pyStrip (pyStrVal b)
            unit := pyStrip (pyStrOrEmpty (cellAt row 2).val)
            result := if d ≠ PyVal.pnone then formatCellNumber d (cellAt row 3).fmt else ""
            standard := pyStrip (pyStrOrEmpty (cellAt row 4).val)
            method := pyStrip (pyStrOrEmpty (cellAt row 5).val) }
      else none
    | none => none
  else none

/-- The result-page scan of `read_xlsx_report_info`: every row of every
sheet from the third onward, in order, through `rowItem`. -/
def read_test_items (sheets : List Sheet) : List ReportItem :=
  (sheets.drop 2).flatMap fun ws => ws.filterMap rowItem

/-- The acceptance gate of `rowItem`, isolated: columns 1 and 2 non-`None`,
column 1 parses as a Python float whose truncation toward zero lies in
`[1, 100]`, and the column-2 cell is truthy. -/
def seqGate (row : Row) : Bool :=
  decide ((cellAt row 0).val ≠ PyVal.pnone) && decide ((cellAt row 1).val ≠ PyVal.pnone) &&
  (match pyFloatOfVal (cellAt row 0).val with
   | some q => decide (1 ≤ truncPQ q) && decide (truncPQ q ≤ 100) && pyTruthy (cellAt row 1).val
   | none => false)

/-- The `ReportItem` built from an accepted row (fields as in `rowItem`). -/
def mkItemOf (row : Row) : ReportItem :=
  { seq :=
      match pyFloatOfVal (cellAt row 0).val with
      | some q => truncPQ q
      | none => 0
    name := pyStrip (pyStrVal (cellAt row 1).val)
    unit := pyStrip (pyStrOrEmpty (cellAt row 2).val)
    result :=
      if (cellAt row 3).val ≠ PyVal.pnone then
        formatCellNumber (cellAt row 3).val (cellAt row 3).fmt
      else ""
    standard := pyStrip (pyStrOrEmpty (cellAt row 4).val)
    method := pyStrip (pyStrOrEmpty (cellAt row 5).val) }

end AnalyzeReports

namespace SpecModel

open WaterVerif AnalyzeReports

/-- Spec-side reading (for refinement comparison, following the spec's
words, not the source): a string parses as an integer when, after
whitespace stripping and one optional sign, it is a non-empty digit
string. -/
def parseIntStr (s : String) : Option Int :=
  let l := pyStripL s.data
  let (neg, l1) : Bool × List Char :=
    match l with
    | '+' :: t => (false, t)
    | '-' :: t => (true, t)
    | t => (false, t)
  if !l1.isEmpty && l1.all isDigitCh then
    some (if neg then -(digitsVal l1 : Int) else (digitsVal l1 : Int))
  else none

/-- Spec-side reading: the column-1 cell "parses as an integer" — an
integral numeric cell or an integer-literal text cell. -/
def specParsesInt : PyVal → Option Int
  | .pnum q => if q.isInt then some (truncPQ q) else none
  | .pstr s => parseIntStr s
  | .pnone => none

/-- Spec-side reading: a non-empty cell (not `None`, and not the empty
string). -/
def specNonEmpty : PyVal → Bool
  | .pnone => false
  | .pstr s => s ≠ ""
  | .pnum _ => true

/-- The acceptance gate exactly as the spec sentence states it: column 1
parses as an integer in `[1, 100]` and the column-2 name cell is
non-empty. -/
def specAcceptsRow (row : Row) : Bool :=
  (match specParsesInt (cellAt row 0).val with
   | some n => decide (1 ≤ n) && decide (n ≤ 100)
   | none => false) &&
  specNonEmpty (cellAt row 1).val

/-- Spec-side reading of `count_digits`' contract: the number of digit
characters in the sign-stripped string. -/
def digitCharCount (l : List Char) : Nat := l.countP isDigitCh

end SpecModel

namespace CrossVerify

open WaterVerif

/-- `cross_verify.vals_match`: exact match after `＜` normalization, then a
numeric comparison with absolute tolerance `1e-4` after stripping `<`, then
the `0`/`未检出` equivalence. -/
def vals_match (orig_val report_val : Option String) : Bool :=
  match orig_val, report_val with
  | none, _ => true
  | _, none => true
  | some ov, some rv =>
    let o := replCh (pyStrip ov) '＜' '<'
    let r := replCh (pyStrip rv) '＜' '<'
    if o = r then true
    else
      let numeric : Bool :=
        match parseFloat? (delCh o '<'), parseFloat? (delCh r '<') with
        | some of, some rf => absSubLt of rf 1 10000
        | _, _ => false
      if numeric then true
      else if (o = "0" ∧ (r = "未检出" ∨ r = "0")) ∨ (r = "0" ∧ (o = "未检出" ∨ o = "0"))
        then true
      else false

/-- Scan to just past the first ASCII `)` for the non-greedy regex `\\(.*?\\)`
of `cross_verify` (whose `.` does not cross newlines). -/
def scanCloseAsc : List Char → Option (List Char)
  | [] => none
  | c :: t =>
    if c = ')' then some t
    else if c = '\n' then none
    else scanCloseAsc t

/-- Delete every non-greedy ASCII-paren group, the worker of
`re.sub(r'\\(.*?\\)', '', s)`. -/
def stripParAscAux : Nat → List Char → List Char
  | _, [] => []
  | 0, l => l
  | fuel + 1, c :: t =>
    if c = '(' then
      match scanCloseAsc t with
      | some rest => stripParAscAux fuel rest
      | none => c :: stripParAscAux fuel t
    else c :: stripParAscAux fuel t

/-- `re.sub(r'\\(.*?\\)', '', s).strip()` — ASCII parenthetical qualifiers
removed (non-greedy), then stripped, as in `cross_verify.find_report_item`. -/
def stripParensAsc (s : String) : String :=
  pyStrip ⟨stripParAscAux s.data.length s.data⟩

/-- `cross_verify.NAME_ALIAS` (original-record item name → report item name),
in the dict's insertion order. -/
def NAME_ALIAS : List (String × String) :=
  [("游离氯", "游离氯"), ("二氧化氯", "二氧化氯"), ("水温", "水温"),
   ("pH", "pH"), ("色度", "色度"), ("浑浊度", "浑浊度"),
   ("高锰酸盐指数", "高锰酸盐指数(以O2计)"), ("溶解氧", "溶解氧"),
   ("化学需氧量", "化学需氧量(COD)"), ("五日生化需氧量", "五日生化需氧量(BOD5)"),
   ("菌落总数", "菌落总数"), ("总大肠菌群", "总大肠菌群"),
   ("大肠埃希氏菌", "大肠埃希氏菌"), ("粪大肠菌群", "粪大肠菌群"),
   ("电导率", "电导率"), ("氟化物", "氟化物"), ("氯化物", "氯化物"),
   ("硝酸盐(以N计)", "硝酸盐(以N计)"), ("硫酸盐", "硫酸盐"),
   ("亚氯酸盐", "亚氯酸盐"), ("氯酸盐", "氯酸盐"), ("二氯乙酸", "二氯乙酸"),
   ("三氯乙酸", "三氯乙酸"), ("铜", "铜"), ("铁", "铁"), ("锰", "锰"),
   ("砷", "砷"), ("锌", "锌"), ("硒", "硒"), ("汞", "汞"), ("镉", "镉"),
   ("铅", "铅"), ("铝", "铝"), ("阴离子合成洗涤剂", "阴离子合成洗涤剂"),
   ("阴离子表面活性剂", "阴离子表面活性剂"), ("挥发酚", "挥发酚类(以苯酚计)"),
   ("氰化物", "氰化物"), ("六 价 铬", "铬(六价)"), ("六价铬", "铬(六价)"),
   ("总硬度(以", "总硬度(以CaCO3计)"), ("氨(以N计)", "氨(以N计)"),
   ("溶解性总固体", "溶解性总固体"), ("三氯甲烷", "三氯甲烷"),
   ("四氯化碳", "四氯化碳"), ("二氯一溴甲烷", "二氯一溴甲烷"),
   ("一氯二溴甲烷", "一氯二溴甲烷"), ("三溴甲烷", "三溴甲烷"),
   ("三卤甲烷", "三卤甲烷"), ("总a", "总α放射性"), ("总β", "总β放射性"),
   ("总磷", "总磷(以P计)"), ("总氮", "总氮(以N计)"), ("氨氮", "氨氮(NH3-N)"),
   ("硫化物", "硫化物"), ("石油类", "石油类"), ("钙", "钙"), ("镁", "镁")]

/-- `cross_verify.find_report_item`: exact name match, then alias lookup,
then an unguarded substring match — direct containment in either direction,
or containment of the ASCII-paren-stripped names. Unlike
`analyze_reports.find_matching_report_item` there is no confusability guard
and no minimum length on the stripped name. -/
def find_report_item (test_items : List AnalyzeReports.ReportItem)
    (orig_name : String) : Option AnalyzeReports.ReportItem :=
  match test_items.find? (fun it => it.name = orig_name) with
  | some it => some it
  | none =>
    match
      (match alGet orig_name NAME_ALIAS with
       | some al => test_items.find? (fun it => it.name = al)
       | none => none) with
    | some it => some it
    | none =>
      test_items.find? fun it =>
        (pyIn orig_name it.name ∨ pyIn it.name orig_name) ∨
        (let clean_o := stripParensAsc orig_name
         let clean_i := stripParensAsc it.name
         clean_o ≠ "" ∧ clean_i ≠ "" ∧ (pyIn clean_o clean_i ∨ pyIn clean_i clean_o))

end CrossVerify


namespace Fixtures

open WaterVerif AnalyzeReports

/-- A result-page row whose column-1 cell holds the text `"1.5"` — not an
integer literal, yet accepted by the sequence gate after float truncation. -/
def fracRow : Row :=
  [⟨.pstr "1.5", none⟩, ⟨.pstr "pH", none⟩, ⟨.pnone, none⟩, ⟨.pstr "6.8", none⟩]

/-- An ordinary accepted result row (numeric sequence cell `2`). -/
def okRow : Row :=
  [⟨.pnum ⟨2, 1⟩, none⟩, ⟨.pstr "浑浊度", none⟩, ⟨.pstr "NTU", none⟩,
   ⟨.pnum ⟨3, 10⟩, some "0.00"⟩]

/-- A rejected row (text in the sequence column). -/
def badRow : Row := [⟨.pstr "合计", none⟩, ⟨.pstr "x", none⟩]

/-- A registry of one plant with an effluent and a distribution sample. -/
def plantReg : List RegEntry :=
  [⟨"1", "c", "甲水厂出厂水", "sc", "W260204C01"⟩,
   ⟨"2", "c", "甲水厂管网水", "sc", "W260204C02"⟩]

/-- Test data: effluent free chlorine 0.30, distribution 0.50. -/
def chlorHigh : AnalyzeReports.TestData :=
  [("W260204C01", [("游离氯", "0.30")]), ("W260204C02", [("游离氯", "0.50")])]

/-- Test data: effluent free chlorine 0.50, distribution 0.52. -/
def chlorOk : AnalyzeReports.TestData :=
  [("W260204C01", [("游离氯", "0.50")]), ("W260204C02", [("游离氯", "0.52")])]

/-- A registry of six effluent samples (same water type) at distinct
plants. -/
def reg6 : List RegEntry :=
  [⟨"1", "c", "一厂出厂水", "s", "W260204C01"⟩,
   ⟨"2", "c", "二厂出厂水", "s", "W260204C02"⟩,
   ⟨"3", "c", "三厂出厂水", "s", "W260204C03"⟩,
   ⟨"4", "c", "四厂出厂水", "s", "W260204C04"⟩,
   ⟨"5", "c", "五厂出厂水", "s", "W260204C05"⟩,
   ⟨"6", "c", "六厂出厂水", "s", "W260204C06"⟩]

/-- Six W-class samples of the same water type all reporting `0.123` for
`浑浊度`. -/
def td6 : AnalyzeReports.TestData :=
  [("W260204C01", [("浑浊度", "0.123")]), ("W260204C02", [("浑浊度", "0.123")]),
   ("W260204C03", [("浑浊度", "0.123")]), ("W260204C04", [("浑浊度", "0.123")]),
   ("W260204C05", [("浑浊度", "0.123")]), ("W260204C06", [("浑浊度", "0.123")])]

/-- The first four entries of `reg6`. -/
def reg4 : List RegEntry := reg6.take 4

/-- Four W-class samples of the same water type all reporting `0.123`. -/
def td4 : AnalyzeReports.TestData := td6.take 4

/-- Three W-class samples of the same water type all reporting `0.123`. -/
def td3 : AnalyzeReports.TestData := td6.take 3

end Fixtures


namespace WaterVerif

theorem den_pos_of_parse {s : String} {x : PQ} (h : parseFloat? s = some x) :
    0 < x.den := by
  unfold parseFloat? at h
  simp only [] at h
  split at h
  · exact absurd h (by simp)
  · rw [Option.map_eq_some'] at h
    obtain ⟨e, _, hx⟩ := h
    subst hx
    have : 0 < 10 ^ (List.takeWhile isDigitCh
        (match pyStripL s.data with
          | '+' :: t => (false, t)
          | '-' :: t => (true, t)
          | t => (false, t)).2 |>.dropWhile isDigitCh |>
            (fun r1 => match r1 with
              | '.' :: t => (t.takeWhile isDigitCh, t.dropWhile isDigitCh)
              | _ => (([] : List Char), r1))).1.length * 10 ^ e.2 := by positivity
    simpa using this

theorem absSubLt_comm (x y : PQ) (c : Int) (cd : Nat) :
    absSubLt x y c cd = absSubLt y x c cd := by
  unfold absSubLt
  rw [show x.num * y.den - y.num * x.den = -(y.num * x.den - x.num * y.den) by ring,
    Int.natAbs_neg, mul_comm ((x.den : ℤ)) ((y.den : ℤ))]

theorem absSubLt_of {x y : PQ} (hx : 0 < x.den) (hy : 0 < y.den)
    (h : |x.toRat - y.toRat| < 1 / 10000) : absSubLt x y 1 10000 = true := by
  have hdd : (0 : ℚ) < ((x.den * y.den : ℕ) : ℚ) := by
    exact_mod_cast Nat.mul_pos hx hy
  have hx' : ((x.den : ℚ)) ≠ 0 := by
    have : (0 : ℚ) < (x.den : ℚ) := by exact_mod_cast hx
    exact ne_of_gt this
  have hy' : ((y.den : ℚ)) ≠ 0 := by
    have : (0 : ℚ) < (y.den : ℚ) := by exact_mod_cast hy
    exact ne_of_gt this
  have h1 : x.toRat - y.toRat =
      ((x.num * y.den - y.num * x.den : ℤ) : ℚ) / ((x.den * y.den : ℕ) : ℚ) := by
    unfold PQ.toRat
    rw [eq_div_iff (ne_of_gt hdd)]
    push_cast
    field_simp
    ring
  rw [h1, abs_div, abs_of_pos hdd, div_lt_iff₀ hdd] at h
  have h2 : |((x.num * y.den - y.num * x.den : ℤ) : ℚ)| * 10000 <
      ((x.den * y.den : ℕ) : ℚ) := by linarith
  rw [← Int.cast_abs] at h2
  have h3 : |x.num * y.den - y.num * x.den| * 10000 < ((x.den * y.den : ℕ) : ℤ) := by
    exact_mod_cast h2
  rw [Int.abs_eq_natAbs] at h3
  unfold absSubLt
  simp only [decide_eq_true_eq]
  push_cast at h3 ⊢
  linarith

end WaterVerif

namespace WaterVerif

theorem isPos_iff {x : PQ} (hx : 0 < x.den) : x.isPos = true ↔ 0 < x.toRat := by
  unfold PQ.isPos PQ.toRat
  rw [decide_eq_true_eq]
  have hx' : (0 : ℚ) < (x.den : ℚ) := by exact_mod_cast hx
  constructor
  · intro h
    apply div_pos _ hx'
    exact_mod_cast h
  · intro h
    by_contra hn
    push_neg at hn
    have h1 : ((x.num : ℚ)) ≤ 0 := by exact_mod_cast hn
    have h2 : (x.num : ℚ) / (x.den : ℚ) ≤ 0 :=
      div_nonpos_iff.2 (Or.inr ⟨h1, le_of_lt hx'⟩)
    linarith

theorem gtMul_11_10_iff {y x : PQ} (hx : 0 < x.den) (hy : 0 < y.den) :
    gtMul y x 11 10 = true ↔ x.toRat * (11 / 10) < y.toRat := by
  unfold gtMul PQ.toRat
  have hx' : (0 : ℚ) < (x.den : ℚ) := by exact_mod_cast hx
  have hy' : (0 : ℚ) < (y.den : ℚ) := by exact_mod_cast hy
  rw [decide_eq_true_eq, div_mul_div_comm, div_lt_div_iff (by positivity) hy']
  constructor
  · intro h
    push_cast at h
    have h' : (x.num * 11 * y.den : ℤ) < y.num * (x.den * 10) := by linarith
    exact_mod_cast h'
  · intro h
    have h' : (x.num * 11 * y.den : ℤ) < y.num * (x.den * 10) := by exact_mod_cast h
    push_cast
    linarith

theorem countP_congr_local {α : Type} {l : List α} {p q : α → Bool}
    (h : ∀ a ∈ l, p a = q a) : l.countP p = l.countP q := by
  induction l with
  | nil => rfl
  | cons c t ih =>
    rw [List.countP_cons, List.countP_cons, h c (by simp),
      ih (fun a ha => h a (by simp [ha]))]

end WaterVerif

namespace Claims

open WaterVerif AnalyzeReports

/-- C8: for every numeric value string (only digits and decimal points after
whitespace stripping and one optional leading sign), `count_digits` returns
the count of digit characters with the sign stripped and the decimal point
excluded; in particular `count_digits "0.005" = 4`, `count_digits "100" = 3`,
`count_digits "17.6" = 3`, and `count_digits "0.30" = 3`. -/
theorem c8_count_digits_correct :
    (∀ s : String,
      (∀ c ∈ (signStripped s).data, isDigitCh c ∨ c = '.') →
      count_digits s = SpecModel.digitCharCount (signStripped s).data) ∧
    count_digits "0.005" = 4 ∧ count_digits "100" = 3 ∧
    count_digits "17.6" = 3 ∧ count_digits "0.30" = 3 := by
  refine ⟨?_, by decide, by decide, by decide, by decide⟩
  intro s h
  unfold count_digits SpecModel.digitCharCount delChar
  rw [← List.countP_eq_length_filter]
  apply countP_congr_local
  intro c hc
  rcases h c hc with hd | he
  · have hne : c ≠ '.' := by
      intro e
      subst e
      exact absurd hd (by decide)
    simp [hne, hd]
  · subst he
    decide

/-- Witness for C8's universal part at the concrete input `"0.30"`. -/
theorem c8_count_digits_correct_witness :
    (∀ c ∈ (signStripped "0.30").data, isDigitCh c ∨ c = '.') ∧
    count_digits "0.30" = SpecModel.digitCharCount (signStripped "0.30").data :=
  ⟨by decide, c8_count_digits_correct.1 "0.30" (by decide)⟩

/-- C2 counterexample: the claim also names `cross_verify.find_report_item`,
but that resolver has no confusability guard — resolving `锰` against a
candidate set holding only `高锰酸盐指数` falls through exact and alias
matching into the bare substring branch and returns the permanganate item
instead of the claimed no-match. -/
theorem c2_counterexample :
    CrossVerify.find_report_item [⟨1, "高锰酸盐指数", "", "", "", ""⟩] "锰" =
      some ⟨1, "高锰酸盐指数", "", "", "", ""⟩ := by decide

/-- C2 amended: the confusability guard lives only in
`analyze_reports.find_matching_report_item`, where resolving `锰` against a
set holding only the permanganate-index name (bare or parenthetically
qualified) yields no match and resolving `锰` against a set containing `锰`
returns that exact item; `cross_verify.find_report_item` resolves `锰`
against {`高锰酸盐指数`} to the permanganate item through its unguarded
substring branch, returning the exact item only when `锰` itself is
present. -/
theorem c2_amended_guard :
    find_matching_report_item [⟨1, "高锰酸盐指数", "", "", "", ""⟩] "锰" = none ∧
    find_matching_report_item [⟨1, "高锰酸盐指数(以O2计)", "", "", "", ""⟩] "锰" = none ∧
    find_matching_report_item
        [⟨1, "高锰酸盐指数", "", "", "", ""⟩, ⟨2, "锰", "", "", "", ""⟩] "锰" =
      some ⟨2, "锰", "", "", "", ""⟩ ∧
    CrossVerify.find_report_item [⟨1, "高锰酸盐指数(以O2计)", "", "", "", ""⟩] "锰" =
      some ⟨1, "高锰酸盐指数(以O2计)", "", "", "", ""⟩ ∧
    CrossVerify.find_report_item
        [⟨1, "高锰酸盐指数", "", "", "", ""⟩, ⟨2, "锰", "", "", "", ""⟩] "锰" =
      some ⟨2, "锰", "", "", "", ""⟩ :=
  ⟨by decide, by decide, by decide, by decide, by decide⟩

theorem ar_vals_match_comm (a b : Option String) :
    AnalyzeReports.vals_match a b = AnalyzeReports.vals_match b a := by
  match a, b with
  | none, none => rfl
  | none, some _ => rfl
  | some _, none => rfl
  | some ov, some rv =>
    simp only [AnalyzeReports.vals_match]
    by_cases h : replCh (stripTrailSeps (pyStrip ov)) '＜' '<' =
        replCh (stripTrailSeps (pyStrip rv)) '＜' '<'
    · rw [if_pos h, if_pos h.symm]
    · rw [if_neg h, if_neg (Ne.symm h)]
      by_cases h2 : (replCh (stripTrailSeps (pyStrip ov)) '＜' '<' = "0" ∧
            (replCh (stripTrailSeps (pyStrip rv)) '＜' '<' = "未检出" ∨
             replCh (stripTrailSeps (pyStrip rv)) '＜' '<' = "0")) ∨
          (replCh (stripTrailSeps (pyStrip rv)) '＜' '<' = "0" ∧
            (replCh (stripTrailSeps (pyStrip ov)) '＜' '<' = "未检出" ∨
             replCh (stripTrailSeps (pyStrip ov)) '＜' '<' = "0"))
      · rw [if_pos h2, if_pos h2.symm]
      · rw [if_neg h2, if_neg (fun hc => h2 hc.symm)]

theorem cv_vals_match_comm (a b : Option String) :
    CrossVerify.vals_match a b = CrossVerify.vals_match b a := by
  match a, b with
  | none, none => rfl
  | none, some _ => rfl
  | some _, none => rfl
  | some ov, some rv =>
    simp only [CrossVerify.vals_match]
    by_cases h : replCh (pyStrip ov) '＜' '<' = replCh (pyStrip rv) '＜' '<'
    · rw [if_pos h, if_pos h.symm]
    · rw [if_neg h, if_neg (Ne.symm h)]
      have hnum :
          (match parseFloat? (delCh (replCh (pyStrip ov) '＜' '<') '<'),
              parseFloat? (delCh (replCh (pyStrip rv) '＜' '<') '<') with
            | some of, some rf => absSubLt of rf 1 10000
            | _, _ => false) =
          (match parseFloat? (delCh (replCh (pyStrip rv) '＜' '<') '<'),
              parseFloat? (delCh (replCh (pyStrip ov) '＜' '<') '<') with
            | some of, some rf => absSubLt of rf 1 10000
            | _, _ => false) := by
        cases parseFloat? (delCh (replCh (pyStrip ov) '＜' '<') '<') <;>
          cases parseFloat? (delCh (replCh (pyStrip rv) '＜' '<') '<') <;>
          simp [absSubLt_comm]
      rw [hnum]
      by_cases h3 : (match parseFloat? (delCh (replCh (pyStrip rv) '＜' '<') '<'),
          parseFloat? (delCh (replCh (pyStrip ov) '＜' '<') '<') with
        | some of, some rf => absSubLt of rf 1 10000
        | _, _ => false) = true
      · rw [if_pos h3, if_pos h3]
      · rw [if_neg h3, if_neg h3]
        by_cases h2 : (replCh (pyStrip ov) '＜' '<' = "0" ∧
            (replCh (pyStrip rv) '＜' '<' = "未检出" ∨
             replCh (pyStrip rv) '＜' '<' = "0")) ∨
          (replCh (pyStrip rv) '＜' '<' = "0" ∧
            (replCh (pyStrip ov) '＜' '<' = "未检出" ∨
             replCh (pyStrip ov) '＜' '<' = "0"))
        · rw [if_pos h2, if_pos h2.symm]
        · rw [if_neg h2, if_neg (fun hc => h2 hc.symm)]

/-- C9: both value comparators are commutative on all inputs, `None`
included. -/
theorem c9_vals_match_commutative (a b : Option String) :
    AnalyzeReports.vals_match a b = AnalyzeReports.vals_match b a ∧
    CrossVerify.vals_match a b = CrossVerify.vals_match b a :=
  ⟨ar_vals_match_comm a b, cv_vals_match_comm a b⟩

/-- C1 counterexample: `analyze_reports.vals_match` — one of the two cited
comparators — is a strict comparator with no tolerance branch: on the spec's
own example pairs it answers `false`, although both sides parse (after `＜`
normalization and `<` stripping) to numbers within `1e-4` of each other. -/
theorem c1_counterexample :
    AnalyzeReports.vals_match (some "<0.05") (some "<0.050") = false ∧
    AnalyzeReports.vals_match (some "0.30") (some "0.3") = false ∧
    parseQ? "0.05" = some (1 / 20) ∧ parseQ? "0.050" = some (1 / 20) ∧
    |(1 : ℚ) / 20 - 1 / 20| < 1 / 10000 := by
  refine ⟨by decide, by decide, ?_, ?_, by norm_num⟩
  · have h : parseFloat? "0.05" = some ⟨5, 100⟩ := by decide
    rw [parseQ?, h, Option.map_some']
    simp [PQ.toRat]
    norm_num
  · have h : parseFloat? "0.050" = some ⟨50, 1000⟩ := by decide
    rw [parseQ?, h, Option.map_some']
    simp [PQ.toRat]
    norm_num

/-- C1 amended: `cross_verify.vals_match` satisfies the tolerance property —
whenever both values parse as numbers after `＜` normalization and stripping
a leading `<` and the parsed numbers differ by less than `1e-4`, it answers
equivalent — and it returns true on both example pairs;
`analyze_reports.vals_match` (see the counterexample) has no tolerance
branch and rejects both pairs. -/
theorem c1_amended_tolerance :
    (∀ (a b : String) (x y : ℚ),
        parseQ? (delCh (replCh (pyStrip a) '＜' '<') '<') = some x →
        parseQ? (delCh (replCh (pyStrip b) '＜' '<') '<') = some y →
        |x - y| < 1 / 10000 →
        CrossVerify.vals_match (some a) (some b) = true) ∧
    CrossVerify.vals_match (some "<0.05") (some "<0.050") = true ∧
    CrossVerify.vals_match (some "0.30") (some "0.3") = true := by
  refine ⟨?_, by decide, by decide⟩
  intro a b x y ha hb hlt
  simp only [CrossVerify.vals_match]
  by_cases h : replCh (pyStrip a) '＜' '<' = replCh (pyStrip b) '＜' '<'
  · rw [if_pos h]
  · rw [if_neg h]
    rw [parseQ?, Option.map_eq_some'] at ha hb
    obtain ⟨xp, hxp, hxr⟩ := ha
    obtain ⟨yp, hyp, hyr⟩ := hb
    rw [hxp, hyp]
    have habs : absSubLt xp yp 1 10000 = true :=
      absSubLt_of (den_pos_of_parse hxp) (den_pos_of_parse hyp)
        (by rw [hxr, hyr]; exact hlt)
    simp [habs]

/-- Witness for C1's amended theorem at the pair `("<0.05", "<0.050")`. -/
theorem c1_amended_tolerance_witness :
    parseQ? (delCh (replCh (pyStrip "<0.05") '＜' '<') '<') = some (1 / 20) ∧
    parseQ? (delCh (replCh (pyStrip "<0.050") '＜' '<') '<') = some (1 / 20) ∧
    |(1 : ℚ) / 20 - 1 / 20| < 1 / 10000 ∧
    CrossVerify.vals_match (some "<0.05") (some "<0.050") = true := by
  have h1 : parseQ? (delCh (replCh (pyStrip "<0.05") '＜' '<') '<') = some (1 / 20) := by
    have h : parseFloat? (delCh (replCh (pyStrip "<0.05") '＜' '<') '<') =
        some ⟨5, 100⟩ := by decide
    rw [parseQ?, h, Option.map_some']
    simp [PQ.toRat]
    norm_num
  have h2 : parseQ? (delCh (replCh (pyStrip "<0.050") '＜' '<') '<') = some (1 / 20) := by
    have h : parseFloat? (delCh (replCh (pyStrip "<0.050") '＜' '<') '<') =
        some ⟨50, 1000⟩ := by decide
    rw [parseQ?, h, Option.map_some']
    simp [PQ.toRat]
    norm_num
  exact ⟨h1, h2, by norm_num,
    c1_amended_tolerance.1 "<0.05" "<0.050" (1 / 20) (1 / 20) h1 h2 (by norm_num)⟩

end Claims

namespace Claims

open WaterVerif AnalyzeReports

theorem find?_singleton {α : Type} (p : α → Bool) (x : α) :
    [x].find? p = if p x then some x else none := by
  cases hp : p x <;> simp [List.find?, hp]

theorem ifsm_comm (a b : String) :
    is_false_substring_match a b = is_false_substring_match b a := by
  simp only [is_false_substring_match, CONFUSABLE_PARAMS, List.any_cons, List.any_nil,
    Bool.or_false]
  exact decide_eq_decide.mpr or_comm

theorem resolve_pair_sub (x y : ReportItem)
    (hsub : (pyIn x.name y.name || pyIn y.name x.name) = true)
    (hg : is_false_substring_match x.name y.name = false) :
    find_matching_report_item [y] x.name = some y := by
  unfold find_matching_report_item
  rw [find?_singleton]
  by_cases h1 : y.name = x.name
  · simp [h1]
  · rw [if_neg (by simp [h1])]
    have hfuzzy : [y].find? (fun it =>
        decide (((pyIn x.name it.name ∨ pyIn it.name x.name) ∧
          ¬is_false_substring_match x.name it.name) ∨
        (let clean_o := stripParensNG x.name
         let clean_i := stripParensNG it.name
         clean_o ≠ "" ∧ clean_i ≠ "" ∧ clean_o.data.length > 1 ∧
          (pyIn clean_o clean_i ∨ pyIn clean_i clean_o) ∧
          ¬is_false_substring_match x.name it.name))) = some y := by
      rw [find?_singleton, if_pos]
      simp only [decide_eq_true_eq]
      left
      refine ⟨?_, by simp [hg]⟩
      rcases Bool.or_eq_true_iff.1 hsub with hs | hs
      · exact Or.inl hs
      · exact Or.inr hs
    cases halias : alGet x.name NAME_ALIAS with
    | none =>
      simp only [halias]
      exact hfuzzy
    | some al =>
      simp only [halias]
      rw [find?_singleton]
      by_cases h2 : y.name = al
      · simp [h2]
      · rw [if_neg (by simp [h2])]
        exact hfuzzy

/-- C4 counterexample: the alias table is one-directional — `阴离子表面活性剂`
(original record) resolves to the report item `阴离子合成洗涤剂`, but resolving
`阴离子合成洗涤剂` against an item set holding `阴离子表面活性剂` finds
nothing (the two names share no substring and the alias table has no entry
for the report-side form). -/
theorem c4_counterexample :
    find_matching_report_item [⟨1, "阴离子合成洗涤剂", "", "", "", ""⟩]
        "阴离子表面活性剂" = some ⟨1, "阴离子合成洗涤剂", "", "", "", ""⟩ ∧
    find_matching_report_item [⟨1, "阴离子表面活性剂", "", "", "", ""⟩]
        "阴离子合成洗涤剂" = none :=
  ⟨by decide, by decide⟩

/-- C4 amended: name resolution is symmetric whenever the pair passes the
direct guarded substring test (which covers every exact match as well); it is
not symmetric in general, because alias-table entries whose two sides share
no substring resolve in one direction only. -/
theorem c4_amended_symmetry (a b : ReportItem)
    (h : ((pyIn a.name b.name || pyIn b.name a.name) &&
        !is_false_substring_match a.name b.name) = true) :
    find_matching_report_item [b] a.name = some b ∧
    find_matching_report_item [a] b.name = some a := by
  rw [Bool.and_eq_true, Bool.not_eq_true'] at h
  refine ⟨resolve_pair_sub a b h.1 h.2, resolve_pair_sub b a ?_ ?_⟩
  · rw [Bool.or_comm]
    exact h.1
  · rw [ifsm_comm]
    exact h.2

/-- Witness for C4's amended theorem at the pair `氨氮` / `氨氮(NH3-N)`. -/
theorem c4_amended_symmetry_witness :
    ((pyIn "氨氮" "氨氮(NH3-N)" || pyIn "氨氮(NH3-N)" "氨氮") &&
      !is_false_substring_match "氨氮" "氨氮(NH3-N)") = true ∧
    (find_matching_report_item [⟨2, "氨氮(NH3-N)", "", "", "", ""⟩] "氨氮" =
        some ⟨2, "氨氮(NH3-N)", "", "", "", ""⟩ ∧
      find_matching_report_item [⟨1, "氨氮", "", "", "", ""⟩] "氨氮(NH3-N)" =
        some ⟨1, "氨氮", "", "", "", ""⟩) :=
  ⟨by decide,
    c4_amended_symmetry ⟨1, "氨氮", "", "", "", ""⟩ ⟨2, "氨氮(NH3-N)", "", "", "", ""⟩
      (by decide)⟩

/-- C5: the disinfectant-residual ordering rule fires, for a plant with both
an effluent and a distribution sample whose chlorine values parse as
positive numbers, exactly when the distribution value strictly exceeds 1.1
times the effluent value; concretely, effluent 0.30 with distribution 0.50
yields exactly one issue and effluent 0.50 with distribution 0.52 yields
none. -/
theorem c5_chlorine_ordering :
    (∀ (plant cl ccRaw gwRaw : String) (x y : ℚ),
        parseQ? (delCh ccRaw '<') = some x →
        parseQ? (delCh gwRaw '<') = some y →
        0 < x → 0 < y →
        (chlorineCheckOne plant cl ccRaw gwRaw ≠ [] ↔ x * (11 / 10) < y)) ∧
    (chlorineIssues Fixtures.plantReg Fixtures.chlorHigh).length = 1 ∧
    chlorineIssues Fixtures.plantReg Fixtures.chlorOk = [] := by
  refine ⟨?_, by decide, by decide⟩
  intro plant cl ccRaw gwRaw x y hcc hgw hx hy
  rw [parseQ?, Option.map_eq_some'] at hcc hgw
  obtain ⟨xp, hxp, hxr⟩ := hcc
  obtain ⟨yp, hyp, hyr⟩ := hgw
  unfold chlorineCheckOne
  rw [hxp, hyp]
  have hdx := den_pos_of_parse hxp
  have hdy := den_pos_of_parse hyp
  have hposx : xp.isPos = true := (isPos_iff hdx).2 (hxr ▸ hx)
  have hposy : yp.isPos = true := (isPos_iff hdy).2 (hyr ▸ hy)
  by_cases hgt : gtMul yp xp 11 10 = true
  · simp only [hgt, hposx, hposy]
    simp only [and_self, if_pos trivial]
    constructor
    · intro _
      rw [← hxr, ← hyr]
      exact (gtMul_11_10_iff hdx hdy).1 hgt
    · intro _
      simp
  · simp only [hgt]
    rw [if_neg (by simp [hgt])]
    constructor
    · intro hc
      exact absurd rfl hc
    · intro hcon
      rw [← hxr, ← hyr] at hcon
      exact absurd ((gtMul_11_10_iff hdx hdy).2 hcon) hgt

/-- Witness for C5's universal part at effluent `0.30`, distribution
`0.50`. -/
theorem c5_chlorine_ordering_witness :
    parseQ? (delCh "0.30" '<') = some (3 / 10) ∧
    parseQ? (delCh "0.50" '<') = some (1 / 2) ∧
    (0 : ℚ) < 3 / 10 ∧ (0 : ℚ) < 1 / 2 ∧
    (chlorineCheckOne "甲水厂" "游离氯" "0.30" "0.50" ≠ [] ↔
      (3 : ℚ) / 10 * (11 / 10) < 1 / 2) := by
  have h1 : parseQ? (delCh "0.30" '<') = some (3 / 10) := by
    have h : parseFloat? (delCh "0.30" '<') = some ⟨30, 100⟩ := by decide
    rw [parseQ?, h, Option.map_some']
    simp [PQ.toRat]
    norm_num
  have h2 : parseQ? (delCh "0.50" '<') = some (1 / 2) := by
    have h : parseFloat? (delCh "0.50" '<') = some ⟨50, 100⟩ := by decide
    rw [parseQ?, h, Option.map_some']
    simp [PQ.toRat]
    norm_num
  exact ⟨h1, h2, by norm_num, by norm_num,
    c5_chlorine_ordering.1 "甲水厂" "游离氯" "0.30" "0.50" (3 / 10) (1 / 2) h1 h2
      (by norm_num) (by norm_num)⟩

end Claims

namespace Claims

open WaterVerif AnalyzeReports

theorem rowItem_eq (row : Row) :
    rowItem row = if seqGate row = true then some (mkItemOf row) else none := by
  unfold rowItem seqGate mkItemOf
  by_cases h1 : (cellAt row 0).val = PyVal.pnone
  · simp [h1]
  · by_cases h2 : (cellAt row 1).val = PyVal.pnone
    · simp [h1, h2]
    · cases hq : pyFloatOfVal (cellAt row 0).val with
      | none => simp [h1, h2, hq]
      | some q =>
        by_cases h3 : 1 ≤ truncPQ q
        · by_cases h4 : truncPQ q ≤ 100
          · by_cases h5 : pyTruthy (cellAt row 1).val = true
            · simp [h1, h2, hq, h3, h4, h5]
            · simp [h1, h2, hq, h3, h4, h5]
          · simp [h1, h2, hq, h3, h4]
        · simp [h1, h2, hq, h3]

theorem filterMap_rowItem (ws : Sheet) :
    ws.filterMap rowItem = (ws.filter seqGate).map mkItemOf := by
  induction ws with
  | nil => rfl
  | cons r t ih =>
    rw [List.filterMap_cons, List.filter_cons, rowItem_eq r]
    by_cases h : seqGate r = true
    · simp [h, ih]
    · simp [h, ih]

/-- C6 counterexample: the row whose column-1 cell holds the text `"1.5"`
and whose column-2 cell holds `"pH"` is accepted as a `ReportItem` (with
sequence 1, by float truncation), although `"1.5"` does not parse as an
integer — so the rule "accepted iff column 1 parses as an integer in
`[1,100]` and column 2 is non-empty" is violated in the only-if
direction. -/
theorem c6_counterexample :
    read_test_items [[], [], [Fixtures.fracRow]] = [⟨1, "pH", "", "6.8", "", ""⟩] ∧
    SpecModel.specAcceptsRow Fixtures.fracRow = false ∧
    seqGate Fixtures.fracRow = true :=
  ⟨by decide, by decide, by decide⟩

/-- C6 amended: on the result sheets (third sheet onward), a row is accepted
as a `ReportItem` if and only if its column-1 and column-2 cells are
non-`None`, column 1 parses as a Python float whose truncation toward zero
lies in `[1, 100]`, and the column-2 name cell is truthy; every other row
contributes nothing. -/
theorem c6_amended_gate (sheets : List Sheet) :
    read_test_items sheets =
      (sheets.drop 2).flatMap fun ws => (ws.filter seqGate).map mkItemOf := by
  unfold read_test_items
  generalize sheets.drop 2 = l
  induction l with
  | nil => rfl
  | cons ws t ih =>
    rw [List.flatMap_cons, List.flatMap_cons, filterMap_rowItem, ih]

end Claims

namespace Claims

open WaterVerif AnalyzeReports

theorem alGet_alUpdate_self {K V : Type} [DecidableEq K] (k : K) (f : Option V → V)
    (m : List (K × V)) : alGet k (alUpdate k f m) = some (f (alGet k m)) := by
  induction m with
  | nil => simp [alUpdate, alGet]
  | cons p t ih =>
    by_cases h : k = p.1
    · simp [alUpdate, alGet, h]
    · simp [alUpdate, alGet, h, ih]

theorem alGet_alUpdate_ne {K V : Type} [DecidableEq K] {k k' : K} (h : k' ≠ k)
    (f : Option V → V) (m : List (K × V)) :
    alGet k' (alUpdate k f m) = alGet k' m := by
  induction m with
  | nil => simp [alUpdate, alGet, h]
  | cons p t ih =>
    by_cases h1 : k = p.1
    · subst h1
      simp [alUpdate, alGet, h]
    · by_cases h2 : k' = p.1
      · simp [alUpdate, alGet, h1, h2]
      · simp [alUpdate, alGet, h1, h2, ih]

theorem alGet_some_mem {K V : Type} [DecidableEq K] {k : K} {val : V}
    {m : List (K × V)} (h : alGet k m = some val) : (k, val) ∈ m := by
  induction m with
  | nil => simp [alGet] at h
  | cons p t ih =>
    rcases p with ⟨p1, p2⟩
    by_cases h1 : k = p1
    · subst h1
      simp [alGet] at h
      rw [← h]
      exact List.mem_cons_self _ _
    · simp only [alGet, if_neg h1] at h
      exact List.mem_cons_of_mem _ (ih h)

theorem alGet_none_iff {K V : Type} [DecidableEq K] {k : K} {m : List (K × V)} :
    alGet k m = none ↔ ∀ p ∈ m, p.1 ≠ k := by
  induction m with
  | nil => simp [alGet]
  | cons p t ih =>
    rcases p with ⟨p1, p2⟩
    by_cases h1 : k = p1
    · subst h1
      simp only [alGet, if_pos rfl]
      constructor
      · intro h
        exact absurd h (by simp)
      · intro h
        exact absurd rfl (h (k, p2) (by simp))
    · simp only [alGet, if_neg h1, ih, List.mem_cons]
      constructor
      · intro h q hq
        rcases hq with hq | hq
        · rw [hq]
          exact fun e => h1 e.symm
        · exact h q hq
      · intro h q hq
        exact h q (Or.inr hq)

theorem mem_keys_alUpdate {K V : Type} [DecidableEq K] {k k2 : K} {f : Option V → V}
    {m : List (K × V)} (h : k2 ∈ (alUpdate k f m).map Prod.fst) :
    k2 ∈ m.map Prod.fst ∨ k2 = k := by
  induction m with
  | nil =>
    simp [alUpdate] at h
    right
    exact h
  | cons r t ih =>
    by_cases h2 : k = r.1
    · simp only [alUpdate, if_pos h2, List.map_cons, List.mem_cons] at h
      rcases h with h | h
      · right
        rw [h]
      · left
        rw [List.map_cons]
        exact List.mem_cons_of_mem _ h
    · simp only [alUpdate, if_neg h2, List.map_cons, List.mem_cons] at h
      rcases h with h | h
      · left
        rw [List.map_cons, h]
        exact List.mem_cons_self _ _
      · rcases ih h with hm | hk
        · left
          rw [List.map_cons]
          exact List.mem_cons_of_mem _ hm
        · right
          exact hk

theorem keys_alUpdate_nodup {K V : Type} [DecidableEq K] (k : K) (f : Option V → V)
    {m : List (K × V)} (h : (m.map Prod.fst).Nodup) :
    ((alUpdate k f m).map Prod.fst).Nodup := by
  induction m with
  | nil => simp [alUpdate]
  | cons p t ih =>
    by_cases h1 : k = p.1
    · subst h1
      simpa [alUpdate] using h
    · simp only [alUpdate, if_neg h1, List.map_cons, List.nodup_cons] at h ⊢
      refine ⟨?_, ih h.2⟩
      intro hc
      rcases mem_keys_alUpdate hc with hm | hk
      · exact h.1 hm
      · exact h1 hk.symm

theorem mem_alUpdate {K V : Type} [DecidableEq K] {k : K} {f : Option V → V}
    {m : List (K × V)} {p : K × V} (h : p ∈ alUpdate k f m) :
    p ∈ m ∨ p.1 = k ∧ (p.2 = f none ∨ ∃ v2, (k, v2) ∈ m ∧ p.2 = f (some v2)) := by
  induction m with
  | nil =>
    simp [alUpdate] at h
    right
    simp [h]
  | cons r t ih =>
    by_cases h1 : k = r.1
    · simp only [alUpdate, if_pos h1] at h
      rcases List.mem_cons.1 h with hq | hq
      · right
        refine ⟨by rw [hq], Or.inr ⟨r.2, ?_, by rw [hq]⟩⟩
        rw [h1]
        simp
      · left
        exact List.mem_cons_of_mem _ hq
    · simp only [alUpdate, if_neg h1] at h
      rcases List.mem_cons.1 h with hq | hq
      · left
        rw [hq]
        simp
      · rcases ih hq with hm | ⟨hk, hv⟩
        · exact Or.inl (List.mem_cons_of_mem _ hm)
        · right
          refine ⟨hk, ?_⟩
          rcases hv with hv | ⟨v2, hv2, he⟩
          · exact Or.inl hv
          · exact Or.inr ⟨v2, List.mem_cons_of_mem _ hv2, he⟩

end Claims

namespace Claims

open WaterVerif AnalyzeReports

theorem dupVal_dupStep (m : List (String × List (String × List String)))
    (sid n2 v2 n v : String) :
    dupVal (dupStep m sid n2 v2) n v =
      if n2 = n ∧ v2 = v then dupVal m n v ++ [sid] else dupVal m n v := by
  unfold dupStep dupVal
  by_cases hn : n = n2
  · subst hn
    rw [alGet_alUpdate_self]
    by_cases hv : v = v2
    · subst hv
      rw [if_pos ⟨rfl, rfl⟩]
      simp only [Option.getD_some]
      rw [alGet_alUpdate_self]
      simp
    · rw [if_neg (fun hc => hv hc.2.symm)]
      simp only [Option.getD_some]
      rw [alGet_alUpdate_ne hv]
  · rw [alGet_alUpdate_ne hn, if_neg (fun hc => hn hc.1.symm)]

theorem dupVal_itemsFold (items : List (String × String)) (sid : String)
    (m : List (String × List (String × List String))) (n v : String) :
    dupVal (items.foldl
        (fun m2 nv => if dupQualifies nv.2 then dupStep m2 sid nv.1 nv.2 else m2) m) n v =
      dupVal m n v ++
        List.replicate
          (items.countP fun nv => nv.1 == n && nv.2 == v && dupQualifies nv.2) sid := by
  induction items generalizing m with
  | nil => simp
  | cons a t ih =>
    rw [List.foldl_cons, ih, List.countP_cons]
    by_cases hq : dupQualifies a.2 = true
    · rw [if_pos hq, dupVal_dupStep]
      by_cases hkey : a.1 = n ∧ a.2 = v
      · rw [if_pos hkey]
        have hq2 : dupQualifies v = true := hkey.2 ▸ hq
        have hpred : (a.1 == n && a.2 == v && dupQualifies a.2) = true := by
          simp [hkey.1, hkey.2, hq2]
        simp only [hpred]
        simp [List.append_assoc, List.replicate_succ]
      · rw [if_neg hkey]
        have hpred : (a.1 == n && a.2 == v && dupQualifies a.2) = false := by
          rcases not_and_or.1 hkey with hc | hc <;> simp [hc]
        simp only [hpred]
        simp
    · rw [if_neg hq]
      have hpred : (a.1 == n && a.2 == v && dupQualifies a.2) = false := by
        simp [hq]
      simp only [hpred]
      simp

theorem dupCollect_cons (p : String × List (String × String))
    (t : AnalyzeReports.TestData) (n v : String) :
    dupCollect (p :: t) n v =
      (if pyStarts p.1 "W" then
        List.replicate
          (p.2.countP fun nv => nv.1 == n && nv.2 == v && dupQualifies nv.2) p.1
       else []) ++ dupCollect t n v := by
  simp [dupCollect]

theorem dupVal_dupMapFold (d : AnalyzeReports.TestData)
    (m : List (String × List (String × List String))) (n v : String) :
    dupVal (d.foldl
        (fun m2 p =>
          if pyStarts p.1 "W" then
            p.2.foldl
              (fun m3 nv => if dupQualifies nv.2 then dupStep m3 p.1 nv.1 nv.2 else m3) m2
          else m2) m) n v =
      dupVal m n v ++ dupCollect d n v := by
  induction d generalizing m with
  | nil => simp [dupCollect]
  | cons p t ih =>
    rw [List.foldl_cons, ih, dupCollect_cons]
    by_cases hw : pyStarts p.1 "W" = true
    · rw [if_pos hw, if_pos hw, dupVal_itemsFold, List.append_assoc]
    · rw [if_neg hw, if_neg hw]
      simp

theorem dupVal_dupMap (d : AnalyzeReports.TestData) (n v : String) :
    dupVal (dupMap d) n v = dupCollect d n v := by
  unfold dupMap
  rw [dupVal_dupMapFold]
  simp [dupVal, alGet]

end Claims

namespace Claims

open WaterVerif AnalyzeReports

theorem dupStep_inv {m : List (String × List (String × List String))}
    (h1 : (m.map Prod.fst).Nodup)
    (h2 : ∀ p ∈ m, (p.2.map Prod.fst).Nodup) (sid n v : String) :
    ((dupStep m sid n v).map Prod.fst).Nodup ∧
    ∀ p ∈ dupStep m sid n v, (p.2.map Prod.fst).Nodup := by
  refine ⟨keys_alUpdate_nodup _ _ h1, ?_⟩
  intro p hp
  rcases mem_alUpdate hp with hm | ⟨_, hv⟩
  · exact h2 p hm
  · rcases hv with hv | ⟨v2, hv2, he⟩
    · rw [hv]
      exact keys_alUpdate_nodup _ _ (by simp)
    · rw [he]
      exact keys_alUpdate_nodup _ _ (h2 (n, v2) hv2)

theorem itemsFold_inv (items : List (String × String)) (sid : String)
    {m : List (String × List (String × List String))}
    (h1 : (m.map Prod.fst).Nodup)
    (h2 : ∀ p ∈ m, (p.2.map Prod.fst).Nodup) :
    ((items.foldl
        (fun m2 nv => if dupQualifies nv.2 then dupStep m2 sid nv.1 nv.2 else m2) m).map
      Prod.fst).Nodup ∧
    ∀ p ∈ items.foldl
        (fun m2 nv => if dupQualifies nv.2 then dupStep m2 sid nv.1 nv.2 else m2) m,
      (p.2.map Prod.fst).Nodup := by
  induction items generalizing m with
  | nil => exact ⟨h1, h2⟩
  | cons a t ih =>
    rw [List.foldl_cons]
    by_cases hq : dupQualifies a.2 = true
    · rw [if_pos hq]
      exact ih (dupStep_inv h1 h2 sid a.1 a.2).1 (dupStep_inv h1 h2 sid a.1 a.2).2
    · rw [if_neg hq]
      exact ih h1 h2

theorem dupMap_inv (d : AnalyzeReports.TestData) :
    ((dupMap d).map Prod.fst).Nodup ∧
    ∀ p ∈ dupMap d, (p.2.map Prod.fst).Nodup := by
  unfold dupMap
  generalize hm : ([] : List (String × List (String × List String))) = m0
  have h1 : (m0.map Prod.fst).Nodup := by rw [← hm]; simp
  have h2 : ∀ p ∈ m0, (p.2.map Prod.fst).Nodup := by rw [← hm]; simp
  clear hm
  induction d generalizing m0 with
  | nil => exact ⟨h1, h2⟩
  | cons p t ih =>
    rw [List.foldl_cons]
    by_cases hw : pyStarts p.1 "W" = true
    · rw [if_pos hw]
      exact ih _ (itemsFold_inv p.2 p.1 h1 h2).1 (itemsFold_inv p.2 p.1 h1 h2).2
    · rw [if_neg hw]
      exact ih _ h1 h2

theorem countP_key_filterMap_ne {n v n1 : String} (inner : List (String × List String))
    (hne : n1 ≠ n) :
    ((inner.filterMap fun q =>
        if 4 ≤ q.2.length then some (n1, q.1, q.2) else none).countP
      fun g => g.1 == n && g.2.1 == v) = 0 := by
  induction inner with
  | nil => rfl
  | cons q t ih =>
    by_cases h4 : 4 ≤ q.2.length
    · simp only [List.filterMap_cons, if_pos h4, List.countP_cons, ih]
      simp [hne]
    · simp only [List.filterMap_cons, if_neg h4]
      exact ih

theorem countP_key_filterMap_absent {n v : String} (t : List (String × List String))
    (habs : ∀ q ∈ t, q.1 ≠ v) :
    ((t.filterMap fun q =>
        if 4 ≤ q.2.length then some (n, q.1, q.2) else none).countP
      fun g => g.1 == n && g.2.1 == v) = 0 := by
  induction t with
  | nil => rfl
  | cons q t2 ih =>
    have hq : q.1 ≠ v := habs q (List.mem_cons_self _ _)
    by_cases h4 : 4 ≤ q.2.length
    · simp only [List.filterMap_cons, if_pos h4, List.countP_cons,
        ih (fun r hr => habs r (List.mem_cons_of_mem _ hr))]
      simp [hq]
    · simp only [List.filterMap_cons, if_neg h4]
      exact ih (fun r hr => habs r (List.mem_cons_of_mem _ hr))

theorem countP_key_filterMap_self {n v : String} (inner : List (String × List String))
    (hnd : (inner.map Prod.fst).Nodup) :
    ((inner.filterMap fun q =>
        if 4 ≤ q.2.length then some (n, q.1, q.2) else none).countP
      fun g => g.1 == n && g.2.1 == v) =
    if 4 ≤ ((alGet v inner).getD []).length then 1 else 0 := by
  induction inner with
  | nil => simp [alGet]
  | cons q t ih =>
    rcases q with ⟨v1, sids⟩
    simp only [List.map_cons, List.nodup_cons] at hnd
    by_cases hv : v = v1
    · subst hv
      have halg : alGet v ((v, sids) :: t) = some sids := by simp [alGet]
      rw [halg, Option.getD_some]
      have htail0 : ((t.filterMap fun q =>
          if 4 ≤ q.2.length then some (n, q.1, q.2) else none).countP
            fun g => g.1 == n && g.2.1 == v) = 0 := by
        apply countP_key_filterMap_absent
        intro r hr he
        exact hnd.1 (he ▸ List.mem_map_of_mem Prod.fst hr)
      by_cases h4 : 4 ≤ sids.length
      · simp only [List.filterMap_cons, if_pos h4, List.countP_cons, htail0]
        simp [h4]
      · simp only [List.filterMap_cons, if_neg h4, htail0, if_neg h4]
    · have hv2 : ¬v1 = v := fun h => hv h.symm
      have halg : alGet v ((v1, sids) :: t) = alGet v t := by
        simp [alGet, hv]
      rw [halg]
      by_cases h4 : 4 ≤ sids.length
      · simp only [List.filterMap_cons, if_pos h4, List.countP_cons, ih hnd.2]
        simp [hv2]
      · simp only [List.filterMap_cons, if_neg h4]
        exact ih hnd.2

theorem countP_flatMap_absent {n v : String}
    (t : List (String × List (String × List String)))
    (habs : ∀ p ∈ t, p.1 ≠ n) :
    ((t.flatMap fun p => p.2.filterMap fun q =>
        if 4 ≤ q.2.length then some (p.1, q.1, q.2) else none).countP
      fun g => g.1 == n && g.2.1 == v) = 0 := by
  induction t with
  | nil => rfl
  | cons p t2 ih =>
    rw [List.flatMap_cons, List.countP_append,
      countP_key_filterMap_ne p.2 (habs p (List.mem_cons_self _ _)),
      ih (fun r hr => habs r (List.mem_cons_of_mem _ hr))]

theorem countP_flatMapF {n v : String}
    (m : List (String × List (String × List String)))
    (h1 : (m.map Prod.fst).Nodup)
    (h2 : ∀ p ∈ m, (p.2.map Prod.fst).Nodup) :
    ((m.flatMap fun p => p.2.filterMap fun q =>
        if 4 ≤ q.2.length then some (p.1, q.1, q.2) else none).countP
      fun g => g.1 == n && g.2.1 == v) =
    if 4 ≤ (dupVal m n v).length then 1 else 0 := by
  induction m with
  | nil => simp [dupVal, alGet]
  | cons p t ih =>
    rcases p with ⟨n1, inner⟩
    simp only [List.map_cons, List.nodup_cons] at h1
    rw [List.flatMap_cons, List.countP_append]
    by_cases hn : n = n1
    · subst hn
      have halg : dupVal ((n, inner) :: t) n v = (alGet v inner).getD [] := by
        simp [dupVal, alGet]
      have htail : ∀ p2 ∈ t, p2.1 ≠ n := by
        intro p2 hp2 he
        exact h1.1 (he ▸ List.mem_map_of_mem Prod.fst hp2)
      rw [halg, countP_flatMap_absent t htail,
        countP_key_filterMap_self inner (h2 (n, inner) (List.mem_cons_self _ _))]
      simp
    · have halg : dupVal ((n1, inner) :: t) n v = dupVal t n v := by
        simp [dupVal, alGet, fun h => hn h]
      rw [halg, countP_key_filterMap_ne inner (fun he => hn he.symm), Nat.zero_add]
      exact ih h1.2 (fun p hp => h2 p (List.mem_cons_of_mem _ hp))

theorem countP_dupGroups (d : AnalyzeReports.TestData) (n v : String) :
    ((dupGroups d).countP fun g => g.1 == n && g.2.1 == v) =
    if 4 ≤ (dupCollect d n v).length then 1 else 0 := by
  unfold dupGroups
  rw [countP_flatMapF (dupMap d) (dupMap_inv d).1 (dupMap_inv d).2, dupVal_dupMap]

theorem mem_dupGroups_of {d : AnalyzeReports.TestData} {n v : String}
    (h : 4 ≤ (dupCollect d n v).length) :
    (n, v, dupCollect d n v) ∈ dupGroups d := by
  have hval := dupVal_dupMap d n v
  cases halg : alGet n (dupMap d) with
  | none =>
    rw [dupVal, halg] at hval
    simp only [Option.getD_none, alGet] at hval
    rw [← hval] at h
    simp at h
  | some inner =>
    cases halg2 : alGet v inner with
    | none =>
      rw [dupVal, halg, Option.getD_some, halg2] at hval
      rw [← hval] at h
      simp at h
    | some sids =>
      have hsids : sids = dupCollect d n v := by
        rw [← hval, dupVal, halg, Option.getD_some, halg2, Option.getD_some]
      unfold dupGroups
      refine List.mem_flatMap.2 ⟨(n, inner), alGet_some_mem halg, ?_⟩
      refine List.mem_filterMap.2 ⟨(v, sids), alGet_some_mem halg2, ?_⟩
      rw [if_pos (by rw [hsids]; exact h), hsids]

end Claims

namespace Claims

open WaterVerif AnalyzeReports

/-- C3 counterexample: with six W-class samples of the same water type all
reporting `0.123` for `浑浊度`, the rule emits exactly one issue — but the
issue names only the first five samples (and appends an ellipsis): the sixth
sample's description and id appear nowhere in the message, so the issue does
not name all of the involved samples. -/
theorem c3_counterexample :
    dupCollect Fixtures.td6 "浑浊度" "0.123" =
      ["W260204C01", "W260204C02", "W260204C03", "W260204C04", "W260204C05",
       "W260204C06"] ∧
    (∀ sid ∈ dupCollect Fixtures.td6 "浑浊度" "0.123",
      waterTypeOf Fixtures.reg6 sid = "出厂水") ∧
    check_duplicate_values Fixtures.reg6 Fixtures.td6 =
      ["项目「浑浊度」有 6 个样品结果完全相同(0.123)，涉及：一厂出厂水、二厂出厂水、三厂出厂水、四厂出厂水、五厂出厂水...，请确认是否录入错误"] ∧
    (∀ msg ∈ check_duplicate_values Fixtures.reg6 Fixtures.td6,
      pyIn "六厂出厂水" msg = false ∧ pyIn "W260204C06" msg = false) :=
  ⟨by decide, by decide, by decide, by decide⟩

/-- C3 amended: when four or more distinct W-class samples of the same water
type report the identical qualifying value (3+ decimals, not `<`-prefixed,
not a non-detect/zero token) for the same item, the rule emits exactly one
issue for that item/value pair, built from the full collected sample list by
`dupMessage` — which names the first five of those samples (hence all of
them when there are at most five) and appends an ellipsis otherwise;
with only three such samples, no issue is emitted for the pair. -/
theorem c3_amended_duplicate_rule (registry : List RegEntry)
    (d : AnalyzeReports.TestData) (n v w : String)
    (hW : ∀ sid ∈ dupCollect d n v, pyStarts sid "W" = true)
    (hw : ∀ sid ∈ dupCollect d n v, waterTypeOf registry sid = w) :
    (4 ≤ (dupCollect d n v).length →
      ((dupGroups d).countP fun g => g.1 == n && g.2.1 == v) = 1 ∧
      (n, v, dupCollect d n v) ∈ dupGroups d ∧
      dupMessage registry (n, v, dupCollect d n v) ∈
        check_duplicate_values registry d) ∧
    ((dupCollect d n v).length = 3 →
      ((dupGroups d).countP fun g => g.1 == n && g.2.1 == v) = 0) := by
  constructor
  · intro h4
    have hmem := mem_dupGroups_of h4
    refine ⟨?_, hmem, ?_⟩
    · rw [countP_dupGroups, if_pos h4]
    · unfold check_duplicate_values
      exact List.mem_map_of_mem (dupMessage registry) hmem
  · intro h3
    rw [countP_dupGroups, if_neg (by omega)]

/-- Witness for C3's amended theorem: four same-type samples sharing
`0.123`. -/
theorem c3_amended_duplicate_rule_witness :
    (∀ sid ∈ dupCollect Fixtures.td4 "浑浊度" "0.123", pyStarts sid "W" = true) ∧
    (∀ sid ∈ dupCollect Fixtures.td4 "浑浊度" "0.123",
      waterTypeOf Fixtures.reg4 sid = "出厂水") ∧
    4 ≤ (dupCollect Fixtures.td4 "浑浊度" "0.123").length ∧
    (((dupGroups Fixtures.td4).countP fun g => g.1 == "浑浊度" && g.2.1 == "0.123") = 1 ∧
      ("浑浊度", "0.123", dupCollect Fixtures.td4 "浑浊度" "0.123") ∈
        dupGroups Fixtures.td4 ∧
      dupMessage Fixtures.reg4
          ("浑浊度", "0.123", dupCollect Fixtures.td4 "浑浊度" "0.123") ∈
        check_duplicate_values Fixtures.reg4 Fixtures.td4) :=
  ⟨by decide, by decide, by decide,
    (c3_amended_duplicate_rule Fixtures.reg4 Fixtures.td4 "浑浊度" "0.123" "出厂水"
      (by decide) (by decide)).1 (by decide)⟩

end Claims

namespace WaterVerif

theorem charToNat_inj {c d : Char} (h : c.toNat = d.toNat) : c = d :=
  Char.ext (UInt32.ext h)

theorem space_not_ascii {c : Char} (h : pyIsSpace c = true) : printAscii c = false := by
  simp only [pyIsSpace, decide_eq_true_eq] at h
  simp only [printAscii, decide_eq_false_iff_not, not_and]
  omega

theorem space_not_cjk {c : Char} (h : pyIsSpace c = true) : isCJK c = false := by
  simp only [pyIsSpace, decide_eq_true_eq] at h
  simp only [isCJK, decide_eq_false_iff_not, not_and]
  omega

theorem cjk_not_space {c : Char} (h : isCJK c = true) : pyIsSpace c = false := by
  simp only [isCJK, decide_eq_true_eq] at h
  simp only [pyIsSpace, decide_eq_false_iff_not]
  omega

theorem ascii_not_space {c : Char} (h : printAscii c = true) : pyIsSpace c = false := by
  simp only [printAscii, decide_eq_true_eq] at h
  simp only [pyIsSpace, decide_eq_false_iff_not]
  omega

theorem space_eq_space {c : Char} (h : pyIsSpace c = true) (hw : c.toNat = 0x20) :
    c = ' ' := charToNat_inj hw

end WaterVerif

namespace WaterVerif

theorem sf1_tail {a : Char} {l : List Char} (h : sf1 (a :: l)) : sf1 l := by
  match l with
  | [] => trivial
  | [_] => trivial
  | x :: y :: t => exact h.2

theorem sf2_tail {a : Char} {l : List Char} (h : sf2 (a :: l)) : sf2 l := by
  match l with
  | [] => trivial
  | [_] => trivial
  | x :: y :: t => exact h.2

theorem sf1_cons_of_head {a : Char} {l : List Char}
    (hh : ∀ x1 x2 t, l = x1 :: x2 :: t →
      ¬(printAscii a = true ∧ pyIsSpace x1 = true ∧ isCJK x2 = true))
    (h : sf1 l) : sf1 (a :: l) := by
  match l with
  | [] => trivial
  | [_] => trivial
  | x :: y :: t => exact ⟨hh x y t rfl, h⟩

theorem sf2_cons_of_head {a : Char} {l : List Char}
    (hh : ∀ x1 x2 t, l = x1 :: x2 :: t →
      ¬(isCJK a = true ∧ pyIsSpace x1 = true ∧ printAscii x2 = true))
    (h : sf2 l) : sf2 (a :: l) := by
  match l with
  | [] => trivial
  | [_] => trivial
  | x :: y :: t => exact ⟨hh x y t rfl, h⟩

theorem sf1_cons_nonspace {a : Char} {l : List Char}
    (hh : ∀ c, l.head? = some c → pyIsSpace c = false) (h : sf1 l) : sf1 (a :: l) := by
  apply sf1_cons_of_head _ h
  intro x1 x2 t hl hc
  rw [hl] at hh
  exact absurd hc.2.1 (by simp [hh x1 rfl])

theorem sf2_cons_nonspace {a : Char} {l : List Char}
    (hh : ∀ c, l.head? = some c → pyIsSpace c = false) (h : sf2 l) : sf2 (a :: l) := by
  apply sf2_cons_of_head _ h
  intro x1 x2 t hl hc
  rw [hl] at hh
  exact absurd hc.2.1 (by simp [hh x1 rfl])

theorem sf1_cons_notascii {a : Char} {l : List Char} (ha : printAscii a = false)
    (h : sf1 l) : sf1 (a :: l) := by
  apply sf1_cons_of_head _ h
  intro x1 x2 t _ hc
  exact absurd hc.1 (by simp [ha])

theorem sf2_cons_notcjk {a : Char} {l : List Char} (ha : isCJK a = false)
    (h : sf2 l) : sf2 (a :: l) := by
  apply sf2_cons_of_head _ h
  intro x1 x2 t _ hc
  exact absurd hc.1 (by simp [ha])

theorem sf1_append_right : ∀ (l m : List Char), sf1 (l ++ m) → sf1 m
  | [], _, h => h
  | _ :: t, m, h => sf1_append_right t m (sf1_tail h)

theorem sf2_append_right : ∀ (l m : List Char), sf2 (l ++ m) → sf2 m
  | [], _, h => h
  | _ :: t, m, h => sf2_append_right t m (sf2_tail h)

theorem sf1_append_left : ∀ (l m : List Char), sf1 (l ++ m) → sf1 l
  | [], _, _ => trivial
  | [_], _, _ => trivial
  | [_, _], _, _ => trivial
  | _ :: b :: c :: t, m, h => ⟨h.1, sf1_append_left (b :: c :: t) m h.2⟩

theorem sf2_append_left : ∀ (l m : List Char), sf2 (l ++ m) → sf2 l
  | [], _, _ => trivial
  | [_], _, _ => trivial
  | [_, _], _, _ => trivial
  | _ :: b :: c :: t, m, h => ⟨h.1, sf2_append_left (b :: c :: t) m h.2⟩

theorem wsOk_sublist {l2 l : List Char} (hs : l2.Sublist l) (h : wsOk l) : wsOk l2 :=
  fun c hc hsp => h c (hs.subset hc) hsp

theorem dropWhile_eq_self_of_head {p : Char → Bool} {l : List Char}
    (h : ∀ c, l.head? = some c → p c = false) : l.dropWhile p = l := by
  cases l with
  | nil => rfl
  | cons c t =>
    rw [List.dropWhile_cons, if_neg]
    simp [h c rfl]

theorem pyStripL_eq_self {l : List Char}
    (h1 : ∀ c, l.head? = some c → pyIsSpace c = false)
    (h2 : ∀ c, l.getLast? = some c → pyIsSpace c = false) : pyStripL l = l := by
  unfold pyStripL
  rw [dropWhile_eq_self_of_head h1,
    dropWhile_eq_self_of_head (fun c hc => h2 c (by rwa [List.head?_reverse] at hc)),
    List.reverse_reverse]

theorem mapChar_id {a b : Char} {l : List Char} (h : ∀ c ∈ l, ¬c = a) :
    mapChar a b l = l := by
  unfold mapChar
  induction l with
  | nil => rfl
  | cons c t ih =>
    rw [List.map_cons, if_neg (h c (List.mem_cons_self _ _)),
      ih fun x hx => h x (List.mem_cons_of_mem _ hx)]

theorem delChar_id {a : Char} {l : List Char} (h : ∀ c ∈ l, ¬c = a) :
    delChar a l = l := by
  unfold delChar
  apply List.filter_eq_self.2
  intro x hx
  simpa using h x hx

end WaterVerif

namespace AnalyzeReports

open WaterVerif

theorem collapseWsAux_false_id : ∀ (n : Nat) (l : List Char), l.length ≤ n →
    wsOk l → noAdjWs l → collapseWsAux false l = l := by
  intro n
  induction n with
  | zero =>
    intro l hl _ _
    cases l with
    | nil => rfl
    | cons c t => simp at hl
  | succ k ih =>
    intro l hl hws hadj
    match l with
    | [] => rfl
    | c :: t =>
      by_cases hc : pyIsSpace c = true
      · have hc' : c = ' ' := hws c (by simp) hc
        match t with
        | [] => simp [collapseWsAux, hc, hc']
        | d :: u =>
          have hR := (List.chain'_cons.1 hadj).1
          have hd : pyIsSpace d = false := by
            by_contra hcon
            rw [Bool.not_eq_false] at hcon
            exact hR ⟨hc, hcon⟩
          have hu : collapseWsAux false u = u := by
            apply ih u (by simp at hl; omega)
            · exact fun x hx hsp => hws x (by simp [hx]) hsp
            · exact (List.chain'_cons.1 hadj).2.tail
          simp [collapseWsAux, hc, hd, hc', hu]
      · have ht : collapseWsAux false t = t := by
          apply ih t (by simp at hl; omega)
          · exact fun x hx hsp => hws x (by simp [hx]) hsp
          · exact hadj.tail
        simp [collapseWsAux, hc, ht]

theorem collapseWs_id {l : List Char} (h1 : wsOk l) (h2 : noAdjWs l) :
    collapseWs l = l :=
  collapseWsAux_false_id l.length l le_rfl h1 h2

end AnalyzeReports

namespace AnalyzeReports

open WaterVerif

theorem head_space_of_takeWhile {l : List Char}
    (h : (l.takeWhile pyIsSpace).isEmpty = false) :
    ∃ s t, l = s :: t ∧ pyIsSpace s = true := by
  cases l with
  | nil => simp [List.takeWhile] at h
  | cons s t =>
    by_cases hs : pyIsSpace s = true
    · exact ⟨s, t, rfl, hs⟩
    · rw [List.takeWhile_cons, if_neg (by simp [hs])] at h
      simp at h

theorem dropWhile_space_cons {s : Char} {rest : List Char} (hs : pyIsSpace s = true)
    (hadj : noAdjWs (s :: rest)) :
    List.dropWhile pyIsSpace (s :: rest) = rest := by
  rw [List.dropWhile_cons, if_pos (by simp [hs])]
  cases rest with
  | nil => rfl
  | cons b u =>
    have hb : pyIsSpace b = false := by
      have hR := (List.chain'_cons.1 hadj).1
      by_contra hcon
      rw [Bool.not_eq_false] at hcon
      exact hR ⟨hs, hcon⟩
    rw [List.dropWhile_cons, if_neg (by simp [hb])]

theorem head?_dropWhile {p : Char → Bool} :
    ∀ (l : List Char) (c : Char), (l.dropWhile p).head? = some c → p c = false := by
  intro l
  induction l with
  | nil => intro c hc; simp [List.dropWhile] at hc
  | cons a t ih =>
    intro c hc
    by_cases ha : p a = true
    · rw [List.dropWhile_cons, if_pos (by simp [ha])] at hc
      exact ih c hc
    · rw [List.dropWhile_cons, if_neg (by simp [ha])] at hc
      simp only [List.head?_cons, Option.some_inj] at hc
      rw [← hc, Bool.eq_false_iff]
      exact ha

theorem rmB1_head? : ∀ (l : List Char), (rmB1 l).head? = l.head? := by
  intro l
  match l with
  | [] => simp [rmB1]
  | a :: rest =>
    simp only [rmB1]
    split <;> rfl

theorem rmB1_sublist : ∀ (n : Nat) (l : List Char), l.length ≤ n → (rmB1 l).Sublist l := by
  intro n
  induction n with
  | zero =>
    intro l hl
    cases l with
    | nil => simp [rmB1]
    | cons c t => simp at hl
  | succ k ih =>
    intro l hl
    match l with
    | [] => simp [rmB1]
    | a :: rest =>
      simp only [rmB1]
      split
      · apply List.Sublist.cons₂
        refine List.Sublist.trans (ih _ ?_) (List.dropWhile_sublist pyIsSpace)
        have := List.Sublist.length_le (List.dropWhile_sublist (l := rest) pyIsSpace)
        simp at hl
        omega
      · apply List.Sublist.cons₂
        apply ih rest
        simp at hl
        omega

theorem rmB1_noAdj : ∀ (n : Nat) (l : List Char), l.length ≤ n →
    noAdjWs l → noAdjWs (rmB1 l) := by
  intro n
  induction n with
  | zero =>
    intro l hl _
    cases l with
    | nil => simp [rmB1, noAdjWs]
    | cons c t => simp at hl
  | succ k ih =>
    intro l hl hadj
    match l with
    | [] => simp [rmB1, noAdjWs]
    | a :: rest =>
      simp only [rmB1]
      split
      next hcond =>
        rw [Bool.and_eq_true, Bool.and_eq_true] at hcond
        obtain ⟨⟨_, hTW⟩, hM⟩ := hcond
        apply List.chain'_cons'.2
        constructor
        · intro y hy hcon
          rw [rmB1_head?] at hy
          have hyns : pyIsSpace y = false := by
            cases hdw : List.dropWhile pyIsSpace rest with
            | nil => rw [hdw] at hy; simp at hy
            | cons b u =>
              rw [hdw] at hy hM
              have hy2 : b = y := by simpa using hy
              rw [← hy2]
              exact cjk_not_space (by simpa [headIs] using hM)
          exact absurd hcon.2 (by simp [hyns])
        · have hlen : (List.dropWhile pyIsSpace rest).length ≤ k := by
            have h1 := List.Sublist.length_le (List.dropWhile_sublist (l := rest) pyIsSpace)
            simp at hl
            omega
          exact ih _ hlen (hadj.tail.suffix (List.dropWhile_suffix pyIsSpace))
      next =>
        apply List.chain'_cons'.2
        constructor
        · intro y hy hcon
          rw [rmB1_head?] at hy
          exact (List.chain'_cons'.1 hadj).1 y hy hcon
        · apply ih rest ?_ hadj.tail
          simp at hl
          omega

theorem rmB1_sf1 : ∀ (n : Nat) (l : List Char), l.length ≤ n →
    noAdjWs l → sf1 (rmB1 l) := by
  intro n
  induction n with
  | zero =>
    intro l hl _
    cases l with
    | nil => simp [rmB1]; trivial
    | cons c t => simp at hl
  | succ k ih =>
    intro l hl hadj
    match l with
    | [] => simp [rmB1]; trivial
    | a :: rest =>
      simp only [rmB1]
      split
      next hcond =>
        rw [Bool.and_eq_true, Bool.and_eq_true] at hcond
        obtain ⟨⟨hA, hTW⟩, hM⟩ := hcond
        rw [Bool.not_eq_true'] at hTW
        obtain ⟨s, rest2, hrest, hs⟩ := head_space_of_takeWhile hTW
        subst hrest
        have hdrop : List.dropWhile pyIsSpace (s :: rest2) = rest2 :=
          dropWhile_space_cons hs hadj.tail
        rw [hdrop] at hM ⊢
        cases rest2 with
        | nil => simp [headIs] at hM
        | cons b u =>
          apply sf1_cons_nonspace
          · intro c hc
            rw [rmB1_head?] at hc
            simp only [List.head?_cons, Option.some_inj] at hc
            rw [← hc]
            exact cjk_not_space (by simpa [headIs] using hM)
          · apply ih (b :: u) ?_ hadj.tail.tail
            simp only [List.length_cons] at hl ⊢
            omega
      next hcond =>
        cases rest with
        | nil =>
          simp only [rmB1]
          trivial
        | cons s rest2 =>
          by_cases hs : pyIsSpace s = true
          · by_cases hA : printAscii a = true
            · have hdrop : List.dropWhile pyIsSpace (s :: rest2) = rest2 :=
                dropWhile_space_cons hs hadj.tail
              have hM : headIs isCJK rest2 = false := by
                by_contra hcon
                rw [Bool.not_eq_false] at hcon
                apply hcond
                rw [Bool.and_eq_true, Bool.and_eq_true]
                refine ⟨⟨hA, ?_⟩, ?_⟩
                · rw [List.takeWhile_cons, if_pos (by simp [hs])]
                  simp
                · rw [hdrop]
                  exact hcon
              have hsA : printAscii s = false := space_not_ascii hs
              have hstep : rmB1 (s :: rest2) = s :: rmB1 rest2 := by
                simp only [rmB1]
                rw [if_neg]
                intro hcon
                rw [Bool.and_eq_true, Bool.and_eq_true] at hcon
                exact absurd hcon.1.1 (by simp [hsA])
              rw [hstep]
              cases rest2 with
              | nil =>
                simp only [rmB1]
                trivial
              | cons b u =>
                have hbCJ : isCJK b = false := by simpa [headIs] using hM
                have hsf : sf1 (rmB1 (b :: u)) := by
                  apply ih (b :: u) ?_ hadj.tail.tail
                  simp only [List.length_cons] at hl ⊢
                  omega
                have hsfs : sf1 (s :: rmB1 (b :: u)) := sf1_cons_notascii hsA hsf
                apply sf1_cons_of_head _ hsfs
                intro x1 x2 t hx hc
                have hx2 : x2 = b := by
                  have h2 : rmB1 (b :: u) = x2 :: t := (List.cons.injEq _ _ _ _ ▸ hx).2
                  have hh := rmB1_head? (b :: u)
                  rw [h2] at hh
                  simpa using hh
                exact absurd hc.2.2 (by simp [hx2, hbCJ])
            · apply sf1_cons_notascii (by simpa using hA)
              apply ih (s :: rest2) ?_ hadj.tail
              simp only [List.length_cons] at hl ⊢
              omega
          · apply sf1_cons_nonspace
            · intro c hc
              rw [rmB1_head?] at hc
              simp only [List.head?_cons, Option.some_inj] at hc
              rw [← hc, Bool.eq_false_iff]
              exact hs
            · apply ih (s :: rest2) ?_ hadj.tail
              simp only [List.length_cons] at hl ⊢
              omega

theorem rmB1_id : ∀ (n : Nat) (l : List Char), l.length ≤ n →
    sf1 l → noAdjWs l → rmB1 l = l := by
  intro n
  induction n with
  | zero =>
    intro l hl _ _
    cases l with
    | nil => simp [rmB1]
    | cons c t => simp at hl
  | succ k ih =>
    intro l hl hsf hadj
    match l with
    | [] => simp [rmB1]
    | a :: rest =>
      simp only [rmB1]
      split
      next hcond =>
        exfalso
        rw [Bool.and_eq_true, Bool.and_eq_true] at hcond
        obtain ⟨⟨hA, hTW⟩, hM⟩ := hcond
        rw [Bool.not_eq_true'] at hTW
        obtain ⟨s, rest2, hrest, hs⟩ := head_space_of_takeWhile hTW
        subst hrest
        rw [dropWhile_space_cons hs hadj.tail] at hM
        cases rest2 with
        | nil => simp [headIs] at hM
        | cons b u => exact hsf.1 ⟨hA, hs, by simpa [headIs] using hM⟩
      next =>
        rw [ih rest (by simp at hl; omega) (sf1_tail hsf) hadj.tail]

end AnalyzeReports

namespace AnalyzeReports

open WaterVerif

theorem cjk_not_ascii {c : Char} (h : isCJK c = true) : printAscii c = false := by
  simp only [isCJK, decide_eq_true_eq] at h
  simp only [printAscii, decide_eq_false_iff_not, not_and]
  omega

theorem wsOk_no_char {l : List Char} (h : wsOk l) {a : Char}
    (hsp : pyIsSpace a = true) (hne : a ≠ ' ') : ∀ c ∈ l, ¬ c = a := by
  intro c hc hca
  subst hca
  exact hne (h c hc hsp)

theorem collapseWsAux_true_head : ∀ (t : List Char) (c : Char),
    (collapseWsAux true t).head? = some c → pyIsSpace c = false := by
  intro t
  induction t with
  | nil => intro c hc; simp [collapseWsAux] at hc
  | cons a u ih =>
    intro c hc
    by_cases ha : pyIsSpace a = true
    · simp only [collapseWsAux, ha, if_true] at hc
      exact ih c hc
    · rw [Bool.not_eq_true] at ha
      simp only [collapseWsAux, ha, Bool.false_eq_true, if_false, List.head?_cons,
        Option.some_inj] at hc
      subst hc
      exact ha

theorem collapseWsAux_wsOk : ∀ (t : List Char) (b : Bool), wsOk (collapseWsAux b t) := by
  intro t
  induction t with
  | nil => intro b c hc hsp; simp [collapseWsAux] at hc
  | cons a u ih =>
    intro b c hc hsp
    by_cases ha : pyIsSpace a = true
    · cases b with
      | true =>
        simp only [collapseWsAux, ha, if_true] at hc
        exact ih true c hc hsp
      | false =>
        simp only [collapseWsAux, ha, if_true] at hc
        rcases List.mem_cons.1 hc with h | h
        · exact h
        · exact ih true c h hsp
    · rw [Bool.not_eq_true] at ha
      simp only [collapseWsAux, ha, Bool.false_eq_true, if_false] at hc
      rcases List.mem_cons.1 hc with h | h
      · subst h; exact absurd hsp (by simp [ha])
      · exact ih false c h hsp

theorem collapseWsAux_noAdj : ∀ (t : List Char) (b : Bool), noAdjWs (collapseWsAux b t) := by
  intro t
  induction t with
  | nil => intro b; simp [collapseWsAux, noAdjWs]
  | cons a u ih =>
    intro b
    by_cases ha : pyIsSpace a = true
    · cases b with
      | true =>
        have hstep : collapseWsAux true (a :: u) = collapseWsAux true u := by
          simp [collapseWsAux, ha]
        rw [hstep]
        exact ih true
      | false =>
        have hstep : collapseWsAux false (a :: u) = ' ' :: collapseWsAux true u := by
          simp [collapseWsAux, ha]
        rw [hstep]
        apply List.chain'_cons'.2
        refine ⟨?_, ih true⟩
        intro y hy hcon
        rw [Option.mem_def] at hy
        exact absurd hcon.2 (by simp [collapseWsAux_true_head u y hy])
    · rw [Bool.not_eq_true] at ha
      have hstep : collapseWsAux b (a :: u) = a :: collapseWsAux false u := by
        simp [collapseWsAux, ha]
      rw [hstep]
      apply List.chain'_cons'.2
      refine ⟨?_, ih false⟩
      intro y hy hcon
      exact absurd hcon.1 (by simp [ha])

theorem mapChar_space_status {a b : Char} (ha : pyIsSpace a = false)
    (hb : pyIsSpace b = false) (c : Char) :
    pyIsSpace (if c = a then b else c) = pyIsSpace c := by
  by_cases hc : c = a
  · rw [if_pos hc, hb, hc, ha]
  · rw [if_neg hc]

theorem mapChar_wsOk {a b : Char} {l : List Char} (ha : pyIsSpace a = false)
    (hb : pyIsSpace b = false) (h : wsOk l) : wsOk (mapChar a b l) := by
  intro c hc hsp
  simp only [mapChar, List.mem_map] at hc
  rcases hc with ⟨x, hx, hxc⟩
  by_cases hxa : x = a
  · rw [if_pos hxa] at hxc
    rw [← hxc] at hsp
    exact absurd hsp (by simp [hb])
  · rw [if_neg hxa] at hxc
    rw [← hxc] at hsp ⊢
    exact h x hx hsp

theorem mapChar_noAdj {a b : Char} {l : List Char} (ha : pyIsSpace a = false)
    (hb : pyIsSpace b = false) (h : noAdjWs l) : noAdjWs (mapChar a b l) := by
  unfold noAdjWs mapChar
  rw [List.chain'_map]
  apply List.Chain'.imp _ h
  intro x y hxy hcon
  apply hxy
  constructor
  · rw [← mapChar_space_status ha hb x]
    exact hcon.1
  · rw [← mapChar_space_status ha hb y]
    exact hcon.2

theorem mapChar_not_mem_self {a b : Char} (hab : b ≠ a) (l : List Char) :
    a ∉ mapChar a b l := by
  intro hmem
  simp only [mapChar, List.mem_map] at hmem
  rcases hmem with ⟨x, _, hx⟩
  by_cases hxa : x = a
  · rw [if_pos hxa] at hx
    exact hab hx
  · rw [if_neg hxa] at hx
    exact hxa hx

theorem mapChar_pres_not_mem {a b c : Char} (hcb : c ≠ b) {l : List Char}
    (h : c ∉ l) : c ∉ mapChar a b l := by
  intro hmem
  simp only [mapChar, List.mem_map] at hmem
  rcases hmem with ⟨x, hxl, hx⟩
  by_cases hxa : x = a
  · rw [if_pos hxa] at hx
    exact hcb hx.symm
  · rw [if_neg hxa] at hx
    exact h (hx ▸ hxl)

end AnalyzeReports

namespace AnalyzeReports

open WaterVerif

theorem rmB2_head? : ∀ (l : List Char), (rmB2 l).head? = l.head? := by
  intro l
  match l with
  | [] => simp [rmB2]
  | a :: rest =>
    simp only [rmB2]
    split <;> rfl

theorem rmB2_sublist : ∀ (n : Nat) (l : List Char), l.length ≤ n → (rmB2 l).Sublist l := by
  intro n
  induction n with
  | zero =>
    intro l hl
    cases l with
    | nil => simp [rmB2]
    | cons c t => simp at hl
  | succ k ih =>
    intro l hl
    match l with
    | [] => simp [rmB2]
    | a :: rest =>
      simp only [rmB2]
      split
      · apply List.Sublist.cons₂
        refine List.Sublist.trans (ih _ ?_) (List.dropWhile_sublist pyIsSpace)
        have := List.Sublist.length_le (List.dropWhile_sublist (l := rest) pyIsSpace)
        simp at hl
        omega
      · apply List.Sublist.cons₂
        apply ih rest
        simp at hl
        omega

theorem rmB2_noAdj : ∀ (n : Nat) (l : List Char), l.length ≤ n →
    noAdjWs l → noAdjWs (rmB2 l) := by
  intro n
  induction n with
  | zero =>
    intro l hl _
    cases l with
    | nil => simp [rmB2, noAdjWs]
    | cons c t => simp at hl
  | succ k ih =>
    intro l hl hadj
    match l with
    | [] => simp [rmB2, noAdjWs]
    | a :: rest =>
      simp only [rmB2]
      split
      next hcond =>
        rw [Bool.and_eq_true, Bool.and_eq_true] at hcond
        obtain ⟨⟨_, hTW⟩, hM⟩ := hcond
        apply List.chain'_cons'.2
        constructor
        · intro y hy hcon
          rw [rmB2_head?] at hy
          have hyns : pyIsSpace y = false := by
            cases hdw : List.dropWhile pyIsSpace rest with
            | nil => rw [hdw] at hy; simp at hy
            | cons b u =>
              rw [hdw] at hy hM
              have hy2 : b = y := by simpa using hy
              rw [← hy2]
              exact ascii_not_space (by simpa [headIs] using hM)
          exact absurd hcon.2 (by simp [hyns])
        · have hlen : (List.dropWhile pyIsSpace rest).length ≤ k := by
            have h1 := List.Sublist.length_le (List.dropWhile_sublist (l := rest) pyIsSpace)
            simp at hl
            omega
          exact ih _ hlen (hadj.tail.suffix (List.dropWhile_suffix pyIsSpace))
      next =>
        apply List.chain'_cons'.2
        constructor
        · intro y hy hcon
          rw [rmB2_head?] at hy
          exact (List.chain'_cons'.1 hadj).1 y hy hcon
        · apply ih rest ?_ hadj.tail
          simp at hl
          omega

theorem rmB2_sf2 : ∀ (n : Nat) (l : List Char), l.length ≤ n →
    noAdjWs l → sf2 (rmB2 l) := by
  intro n
  induction n with
  | zero =>
    intro l hl _
    cases l with
    | nil => simp [rmB2]; trivial
    | cons c t => simp at hl
  | succ k ih =>
    intro l hl hadj
    match l with
    | [] => simp [rmB2]; trivial
    | a :: rest =>
      simp only [rmB2]
      split
      next hcond =>
        rw [Bool.and_eq_true, Bool.and_eq_true] at hcond
        obtain ⟨⟨hA, hTW⟩, hM⟩ := hcond
        rw [Bool.not_eq_true'] at hTW
        obtain ⟨s, rest2, hrest, hs⟩ := head_space_of_takeWhile hTW
        subst hrest
        have hdrop : List.dropWhile pyIsSpace (s :: rest2) = rest2 :=
          dropWhile_space_cons hs hadj.tail
        rw [hdrop] at hM ⊢
        cases rest2 with
        | nil => simp [headIs] at hM
        | cons b u =>
          apply sf2_cons_nonspace
          · intro c hc
            rw [rmB2_head?] at hc
            simp only [List.head?_cons, Option.some_inj] at hc
            rw [← hc]
            exact ascii_not_space (by simpa [headIs] using hM)
          · apply ih (b :: u) ?_ hadj.tail.tail
            simp only [List.length_cons] at hl ⊢
            omega
      next hcond =>
        cases rest with
        | nil =>
          simp only [rmB2]
          trivial
        | cons s rest2 =>
          by_cases hs : pyIsSpace s = true
          · by_cases hA : isCJK a = true
            · have hdrop : List.dropWhile pyIsSpace (s :: rest2) = rest2 :=
                dropWhile_space_cons hs hadj.tail
              have hM : headIs printAscii rest2 = false := by
                by_contra hcon
                rw [Bool.not_eq_false] at hcon
                apply hcond
                rw [Bool.and_eq_true, Bool.and_eq_true]
                refine ⟨⟨hA, ?_⟩, ?_⟩
                · rw [List.takeWhile_cons, if_pos (by simp [hs])]
                  simp
                · rw [hdrop]
                  exact hcon
              have hsK : isCJK s = false := space_not_cjk hs
              have hstep : rmB2 (s :: rest2) = s :: rmB2 rest2 := by
                simp only [rmB2]
                rw [if_neg]
                intro hcon
                rw [Bool.and_eq_true, Bool.and_eq_true] at hcon
                exact absurd hcon.1.1 (by simp [hsK])
              rw [hstep]
              cases rest2 with
              | nil =>
                simp only [rmB2]
                trivial
              | cons b u =>
                have hbA : printAscii b = false := by simpa [headIs] using hM
                have hsf : sf2 (rmB2 (b :: u)) := by
                  apply ih (b :: u) ?_ hadj.tail.tail
                  simp only [List.length_cons] at hl ⊢
                  omega
                have hsfs : sf2 (s :: rmB2 (b :: u)) := sf2_cons_notcjk hsK hsf
                apply sf2_cons_of_head _ hsfs
                intro x1 x2 t hx hc
                have hx2 : x2 = b := by
                  have h2 : rmB2 (b :: u) = x2 :: t := (List.cons.injEq _ _ _ _ ▸ hx).2
                  have hh := rmB2_head? (b :: u)
                  rw [h2] at hh
                  simpa using hh
                exact absurd hc.2.2 (by simp [hx2, hbA])
            · apply sf2_cons_notcjk (by simpa using hA)
              apply ih (s :: rest2) ?_ hadj.tail
              simp only [List.length_cons] at hl ⊢
              omega
          · apply sf2_cons_nonspace
            · intro c hc
              rw [rmB2_head?] at hc
              simp only [List.head?_cons, Option.some_inj] at hc
              rw [← hc, Bool.eq_false_iff]
              exact hs
            · apply ih (s :: rest2) ?_ hadj.tail
              simp only [List.length_cons] at hl ⊢
              omega

theorem rmB2_id : ∀ (n : Nat) (l : List Char), l.length ≤ n →
    sf2 l → noAdjWs l → rmB2 l = l := by
  intro n
  induction n with
  | zero =>
    intro l hl _ _
    cases l with
    | nil => simp [rmB2]
    | cons c t => simp at hl
  | succ k ih =>
    intro l hl hsf hadj
    match l with
    | [] => simp [rmB2]
    | a :: rest =>
      simp only [rmB2]
      split
      next hcond =>
        exfalso
        rw [Bool.and_eq_true, Bool.and_eq_true] at hcond
        obtain ⟨⟨hA, hTW⟩, hM⟩ := hcond
        rw [Bool.not_eq_true'] at hTW
        obtain ⟨s, rest2, hrest, hs⟩ := head_space_of_takeWhile hTW
        subst hrest
        rw [dropWhile_space_cons hs hadj.tail] at hM
        cases rest2 with
        | nil => simp [headIs] at hM
        | cons b u => exact hsf.1 ⟨hA, hs, by simpa [headIs] using hM⟩
      next =>
        rw [ih rest (by simp at hl; omega) (sf2_tail hsf) hadj.tail]

end AnalyzeReports

namespace AnalyzeReports

open WaterVerif

theorem rmB2_pres_sf1 : ∀ (n : Nat) (l : List Char), l.length ≤ n →
    sf1 l → noAdjWs l → sf1 (rmB2 l) := by
  intro n
  induction n with
  | zero =>
    intro l hl _ _
    cases l with
    | nil => simp [rmB2]; trivial
    | cons c t => simp at hl
  | succ k ih =>
    intro l hl hsf hadj
    match l with
    | [] => simp [rmB2]; trivial
    | a :: rest =>
      simp only [rmB2]
      split
      next hcond =>
        rw [Bool.and_eq_true, Bool.and_eq_true] at hcond
        obtain ⟨⟨hK, hTW⟩, hM⟩ := hcond
        rw [Bool.not_eq_true'] at hTW
        obtain ⟨s, rest2, hrest, hs⟩ := head_space_of_takeWhile hTW
        subst hrest
        have hdrop : List.dropWhile pyIsSpace (s :: rest2) = rest2 :=
          dropWhile_space_cons hs hadj.tail
        rw [hdrop]
        apply sf1_cons_notascii (cjk_not_ascii hK)
        apply ih rest2 ?_ ?_ hadj.tail.tail
        · simp only [List.length_cons] at hl
          omega
        · exact sf1_tail (sf1_tail hsf)
      next hcond =>
        apply sf1_cons_of_head
        · intro x1 x2 t hx hc
          obtain ⟨hA, hs1, hK2⟩ := hc
          have hh1 : rest.head? = some x1 := by
            rw [← rmB2_head? rest, hx]
            rfl
          cases rest with
          | nil => simp at hh1
          | cons y1 rest2 =>
            have hy1 : y1 = x1 := by simpa using hh1
            subst hy1
            have hK1 : isCJK y1 = false := space_not_cjk hs1
            have hstep : rmB2 (y1 :: rest2) = y1 :: rmB2 rest2 := by
              simp only [rmB2]
              rw [if_neg]
              intro hcon2
              rw [Bool.and_eq_true, Bool.and_eq_true] at hcon2
              exact absurd hcon2.1.1 (by simp [hK1])
            rw [hstep] at hx
            have hx2 : rmB2 rest2 = x2 :: t := by
              injection hx
            have hh2 : rest2.head? = some x2 := by
              rw [← rmB2_head? rest2, hx2]
              rfl
            cases rest2 with
            | nil => simp at hh2
            | cons y2 rest3 =>
              have hy2 : y2 = x2 := by simpa using hh2
              subst hy2
              exact hsf.1 ⟨hA, hs1, hK2⟩
        · apply ih rest ?_ (sf1_tail hsf) hadj.tail
          simp only [List.length_cons] at hl
          omega

theorem sf1_split (s m t : List Char) (hsf : sf1 (s ++ m ++ t)) : sf1 m := by
  apply sf1_append_left m t
  apply sf1_append_right s (m ++ t)
  rwa [← List.append_assoc]

theorem sf2_split (s m t : List Char) (hsf : sf2 (s ++ m ++ t)) : sf2 m := by
  apply sf2_append_left m t
  apply sf2_append_right s (m ++ t)
  rwa [← List.append_assoc]

theorem pyStripL_decomp (l : List Char) : ∃ s t, l = s ++ pyStripL l ++ t := by
  obtain ⟨s1, hs1⟩ := List.dropWhile_suffix (l := l) pyIsSpace
  obtain ⟨s2, hs2⟩ :=
    List.dropWhile_suffix (l := (l.dropWhile pyIsSpace).reverse) pyIsSpace
  refine ⟨s1, s2.reverse, ?_⟩
  unfold pyStripL
  rw [List.append_assoc, ← List.reverse_append, hs2, List.reverse_reverse, hs1]

theorem pyStripL_head {l : List Char} {c : Char}
    (hc : (pyStripL l).head? = some c) : pyIsSpace c = false := by
  obtain ⟨s2, hs2⟩ :=
    List.dropWhile_suffix (l := (l.dropWhile pyIsSpace).reverse) pyIsSpace
  have hA : l.dropWhile pyIsSpace = pyStripL l ++ s2.reverse := by
    conv_lhs => rw [← List.reverse_reverse (l.dropWhile pyIsSpace), ← hs2]
    rw [List.reverse_append]
    rfl
  cases hB : pyStripL l with
  | nil => rw [hB] at hc; simp at hc
  | cons x u =>
    rw [hB] at hc
    have hx : x = c := by simpa using hc
    subst hx
    apply head?_dropWhile l x
    rw [hA, hB]
    rfl

theorem pyStripL_idem (l : List Char) : pyStripL (pyStripL l) = pyStripL l := by
  have h1 : (pyStripL l).dropWhile pyIsSpace = pyStripL l :=
    dropWhile_eq_self_of_head fun c hc => pyStripL_head hc
  have hstart : pyStripL (pyStripL l) =
      (((pyStripL l).dropWhile pyIsSpace).reverse.dropWhile pyIsSpace).reverse := rfl
  rw [hstart, h1]
  have h2 : (pyStripL l).reverse = (l.dropWhile pyIsSpace).reverse.dropWhile pyIsSpace := by
    unfold pyStripL
    rw [List.reverse_reverse]
  rw [h2, dropWhile_eq_self_of_head fun c hc => head?_dropWhile _ c hc]
  rfl

end AnalyzeReports

namespace AnalyzeReports

open WaterVerif

theorem rmB1_sublist_self (l : List Char) : (rmB1 l).Sublist l :=
  rmB1_sublist l.length l le_rfl

theorem rmB2_sublist_self (l : List Char) : (rmB2 l).Sublist l :=
  rmB2_sublist l.length l le_rfl

theorem rmB1_noAdj_self {l : List Char} (h : noAdjWs l) : noAdjWs (rmB1 l) :=
  rmB1_noAdj l.length l le_rfl h

theorem rmB2_noAdj_self {l : List Char} (h : noAdjWs l) : noAdjWs (rmB2 l) :=
  rmB2_noAdj l.length l le_rfl h

theorem rmB1_sf1_self {l : List Char} (h : noAdjWs l) : sf1 (rmB1 l) :=
  rmB1_sf1 l.length l le_rfl h

theorem rmB2_sf2_self {l : List Char} (h : noAdjWs l) : sf2 (rmB2 l) :=
  rmB2_sf2 l.length l le_rfl h

theorem rmB2_sf1_self {l : List Char} (h1 : sf1 l) (h : noAdjWs l) : sf1 (rmB2 l) :=
  rmB2_pres_sf1 l.length l le_rfl h1 h

theorem rmB1_id_self {l : List Char} (h1 : sf1 l) (h : noAdjWs l) : rmB1 l = l :=
  rmB1_id l.length l le_rfl h1 h

theorem rmB2_id_self {l : List Char} (h2 : sf2 l) (h : noAdjWs l) : rmB2 l = l :=
  rmB2_id l.length l le_rfl h2 h

theorem not_mem_sublist {c : Char} {l2 l : List Char} (hs : l2.Sublist l)
    (h : c ∉ l) : c ∉ l2 :=
  fun hm => h (hs.subset hm)

theorem pyStripL_sublist (l : List Char) : (pyStripL l).Sublist l := by
  obtain ⟨u, v, hdec⟩ := pyStripL_decomp l
  have h2 : (pyStripL l).Sublist (u ++ pyStripL l ++ v) := by
    rw [List.append_assoc]
    exact (List.sublist_append_left _ v).trans (List.sublist_append_right u _)
  rwa [← hdec] at h2

theorem sf1_pyStripL {l : List Char} (h : sf1 l) : sf1 (pyStripL l) := by
  obtain ⟨u, v, hdec⟩ := pyStripL_decomp l
  apply sf1_split u _ v
  rw [← hdec]
  exact h

theorem sf2_pyStripL {l : List Char} (h : sf2 l) : sf2 (pyStripL l) := by
  obtain ⟨u, v, hdec⟩ := pyStripL_decomp l
  apply sf2_split u _ v
  rw [← hdec]
  exact h

theorem noAdjWs_pyStripL {l : List Char} (h : noAdjWs l) : noAdjWs (pyStripL l) := by
  obtain ⟨u, v, hdec⟩ := pyStripL_decomp l
  exact List.Chain'.infix h ⟨u, v, hdec.symm⟩

/-- On a list with the invariants of `normalize_method`'s own output, every
stage of the pipeline is the identity. -/
theorem normalize_pipeline_id {L : List Char} (hw : wsOk L) (ha : noAdjWs L)
    (h1 : sf1 L) (h2 : sf2 L) (hstrip : pyStripL L = L)
    (m5 : '（' ∉ L) (m6 : '）' ∉ L) (m7 : '，' ∉ L) (m8 : '：' ∉ L)
    (m9 : '；' ∉ L) (m10 : '、' ∉ L) :
    pyStripL (rmB2 (rmB1 (mapChar '、' ',' (mapChar '；' ';' (mapChar '：' ':'
      (mapChar '，' ',' (mapChar '）' ')' (mapChar '（' '(' (collapseWs (mapChar '　' ' '
      (delChar '\r' (mapChar '\n' ' ' (pyStripL L))))))))))))) = L := by
  rw [hstrip]
  rw [mapChar_id (wsOk_no_char hw (by decide) (by decide))]
  rw [delChar_id (wsOk_no_char hw (by decide) (by decide))]
  rw [mapChar_id (wsOk_no_char hw (by decide) (by decide))]
  rw [collapseWs_id hw ha]
  rw [mapChar_id (show ∀ c ∈ L, ¬ c = '（' from fun c hc hca => m5 (hca ▸ hc))]
  rw [mapChar_id (show ∀ c ∈ L, ¬ c = '）' from fun c hc hca => m6 (hca ▸ hc))]
  rw [mapChar_id (show ∀ c ∈ L, ¬ c = '，' from fun c hc hca => m7 (hca ▸ hc))]
  rw [mapChar_id (show ∀ c ∈ L, ¬ c = '：' from fun c hc hca => m8 (hca ▸ hc))]
  rw [mapChar_id (show ∀ c ∈ L, ¬ c = '；' from fun c hc hca => m9 (hca ▸ hc))]
  rw [mapChar_id (show ∀ c ∈ L, ¬ c = '、' from fun c hc hca => m10 (hca ▸ hc))]
  rw [rmB1_id_self h1 ha]
  rw [rmB2_id_self h2 ha]
  exact hstrip

end AnalyzeReports

namespace AnalyzeReports

open WaterVerif

/-- Invariants of `normalize_method`'s output string: all whitespace is a
single plain space, no adjacent whitespace, no whitespace at an ASCII/CJK
boundary in either direction, stripped at both ends, and free of the six
full-width punctuation characters the pipeline replaces. -/
theorem normalize_output_props (s : String) :
    wsOk (normalize_method s).data ∧ noAdjWs (normalize_method s).data ∧
    sf1 (normalize_method s).data ∧ sf2 (normalize_method s).data ∧
    pyStripL (normalize_method s).data = (normalize_method s).data ∧
    '（' ∉ (normalize_method s).data ∧ '）' ∉ (normalize_method s).data ∧
    '，' ∉ (normalize_method s).data ∧ '：' ∉ (normalize_method s).data ∧
    '；' ∉ (normalize_method s).data ∧ '、' ∉ (normalize_method s).data := by
  have hd : (normalize_method s).data =
      pyStripL (rmB2 (rmB1 (mapChar '、' ',' (mapChar '；' ';' (mapChar '：' ':'
        (mapChar '，' ',' (mapChar '）' ')' (mapChar '（' '(' (collapseWs (mapChar '　' ' '
        (delChar '\r' (mapChar '\n' ' ' (pyStripL s.data))))))))))))) := rfl
  rw [hd]
  generalize mapChar '　' ' ' (delChar '\r' (mapChar '\n' ' ' (pyStripL s.data))) = X
  have hw4 : wsOk (collapseWs X) := collapseWsAux_wsOk X false
  have ha4 : noAdjWs (collapseWs X) := collapseWsAux_noAdj X false
  have hw5 := mapChar_wsOk (show pyIsSpace '（' = false by decide)
    (show pyIsSpace '(' = false by decide) hw4
  have ha5 := mapChar_noAdj (show pyIsSpace '（' = false by decide)
    (show pyIsSpace '(' = false by decide) ha4
  have hw6 := mapChar_wsOk (show pyIsSpace '）' = false by decide)
    (show pyIsSpace ')' = false by decide) hw5
  have ha6 := mapChar_noAdj (show pyIsSpace '）' = false by decide)
    (show pyIsSpace ')' = false by decide) ha5
  have hw7 := mapChar_wsOk (show pyIsSpace '，' = false by decide)
    (show pyIsSpace ',' = false by decide) hw6
  have ha7 := mapChar_noAdj (show pyIsSpace '，' = false by decide)
    (show pyIsSpace ',' = false by decide) ha6
  have hw8 := mapChar_wsOk (show pyIsSpace '：' = false by decide)
    (show pyIsSpace ':' = false by decide) hw7
  have ha8 := mapChar_noAdj (show pyIsSpace '：' = false by decide)
    (show pyIsSpace ':' = false by decide) ha7
  have hw9 := mapChar_wsOk (show pyIsSpace '；' = false by decide)
    (show pyIsSpace ';' = false by decide) hw8
  have ha9 := mapChar_noAdj (show pyIsSpace '；' = false by decide)
    (show pyIsSpace ';' = false by decide) ha8
  have hw10 := mapChar_wsOk (show pyIsSpace '、' = false by decide)
    (show pyIsSpace ',' = false by decide) hw9
  have ha10 := mapChar_noAdj (show pyIsSpace '、' = false by decide)
    (show pyIsSpace ',' = false by decide) ha9
  have ha11 := rmB1_noAdj_self ha10
  have hw11 := wsOk_sublist (rmB1_sublist_self _) hw10
  have hsfa11 := rmB1_sf1_self ha10
  have ha12 := rmB2_noAdj_self ha11
  have hw12 := wsOk_sublist (rmB2_sublist_self _) hw11
  have hsfb12 := rmB2_sf2_self ha11
  have hsfa12 := rmB2_sf1_self hsfa11 ha11
  have hm5a5 : '（' ∉ mapChar '（' '(' (collapseWs X) :=
    mapChar_not_mem_self (show '(' ≠ '（' by decide) (collapseWs X)
  have hm5a6 : '（' ∉ mapChar '）' ')' (mapChar '（' '(' (collapseWs X)) :=
    mapChar_pres_not_mem (show '（' ≠ ')' by decide) hm5a5
  have hm5a7 : '（' ∉ mapChar '，' ',' (mapChar '）' ')' (mapChar '（' '(' (collapseWs X))) :=
    mapChar_pres_not_mem (show '（' ≠ ',' by decide) hm5a6
  have hm5a8 : '（' ∉ mapChar '：' ':' (mapChar '，' ',' (mapChar '）' ')' (mapChar '（' '(' (collapseWs X)))) :=
    mapChar_pres_not_mem (show '（' ≠ ':' by decide) hm5a7
  have hm5a9 : '（' ∉ mapChar '；' ';' (mapChar '：' ':' (mapChar '，' ',' (mapChar '）' ')' (mapChar '（' '(' (collapseWs X))))) :=
    mapChar_pres_not_mem (show '（' ≠ ';' by decide) hm5a8
  have hm5a10 : '（' ∉ mapChar '、' ',' (mapChar '；' ';' (mapChar '：' ':' (mapChar '，' ',' (mapChar '）' ')' (mapChar '（' '(' (collapseWs X)))))) :=
    mapChar_pres_not_mem (show '（' ≠ ',' by decide) hm5a9
  have hm5a11 := not_mem_sublist (rmB1_sublist_self _) hm5a10
  have hm5a12 := not_mem_sublist (rmB2_sublist_self _) hm5a11
  have hm5aT := not_mem_sublist (pyStripL_sublist _) hm5a12
  have hm6a6 : '）' ∉ mapChar '）' ')' (mapChar '（' '(' (collapseWs X)) :=
    mapChar_not_mem_self (show ')' ≠ '）' by decide) (mapChar '（' '(' (collapseWs X))
  have hm6a7 : '）' ∉ mapChar '，' ',' (mapChar '）' ')' (mapChar '（' '(' (collapseWs X))) :=
    mapChar_pres_not_mem (show '）' ≠ ',' by decide) hm6a6
  have hm6a8 : '）' ∉ mapChar '：' ':' (mapChar '，' ',' (mapChar '）' ')' (mapChar '（' '(' (collapseWs X)))) :=
    mapChar_pres_not_mem (show '）' ≠ ':' by decide) hm6a7
  have hm6a9 : '）' ∉ mapChar '；' ';' (mapChar '：' ':' (mapChar '，' ',' (mapChar '）' ')' (mapChar '（' '(' (collapseWs X))))) :=
    mapChar_pres_not_mem (show '）' ≠ ';' by decide) hm6a8
  have hm6a10 : '）' ∉ mapChar '、' ',' (mapChar '；' ';' (mapChar '：' ':' (mapChar '，' ',' (mapChar '）' ')' (mapChar '（' '(' (collapseWs X)))))) :=
    mapChar_pres_not_mem (show '）' ≠ ',' by decide) hm6a9
  have hm6a11 := not_mem_sublist (rmB1_sublist_self _) hm6a10
  have hm6a12 := not_mem_sublist (rmB2_sublist_self _) hm6a11
  have hm6aT := not_mem_sublist (pyStripL_sublist _) hm6a12
  have hm7a7 : '，' ∉ mapChar '，' ',' (mapChar '）' ')' (mapChar '（' '(' (collapseWs X))) :=
    mapChar_not_mem_self (show ',' ≠ '，' by decide) (mapChar '）' ')' (mapChar '（' '(' (collapseWs X)))
  have hm7a8 : '，' ∉ mapChar '：' ':' (mapChar '，' ',' (mapChar '）' ')' (mapChar '（' '(' (collapseWs X)))) :=
    mapChar_pres_not_mem (show '，' ≠ ':' by decide) hm7a7
  have hm7a9 : '，' ∉ mapChar '；' ';' (mapChar '：' ':' (mapChar '，' ',' (mapChar '）' ')' (mapChar '（' '(' (collapseWs X))))) :=
    mapChar_pres_not_mem (show '，' ≠ ';' by decide) hm7a8
  have hm7a10 : '，' ∉ mapChar '、' ',' (mapChar '；' ';' (mapChar '：' ':' (mapChar '，' ',' (mapChar '）' ')' (mapChar '（' '(' (collapseWs X)))))) :=
    mapChar_pres_not_mem (show '，' ≠ ',' by decide) hm7a9
  have hm7a11 := not_mem_sublist (rmB1_sublist_self _) hm7a10
  have hm7a12 := not_mem_sublist (rmB2_sublist_self _) hm7a11
  have hm7aT := not_mem_sublist (pyStripL_sublist _) hm7a12
  have hm8a8 : '：' ∉ mapChar '：' ':' (mapChar '，' ',' (mapChar '）' ')' (mapChar '（' '(' (collapseWs X)))) :=
    mapChar_not_mem_self (show ':' ≠ '：' by decide) (mapChar '，' ',' (mapChar '）' ')' (mapChar '（' '(' (collapseWs X))))
  have hm8a9 : '：' ∉ mapChar '；' ';' (mapChar '：' ':' (mapChar '，' ',' (mapChar '）' ')' (mapChar '（' '(' (collapseWs X))))) :=
    mapChar_pres_not_mem (show '：' ≠ ';' by decide) hm8a8
  have hm8a10 : '：' ∉ mapChar '、' ',' (mapChar '；' ';' (mapChar '：' ':' (mapChar '，' ',' (mapChar '）' ')' (mapChar '（' '(' (collapseWs X)))))) :=
    mapChar_pres_not_mem (show '：' ≠ ',' by decide) hm8a9
  have hm8a11 := not_mem_sublist (rmB1_sublist_self _) hm8a10
  have hm8a12 := not_mem_sublist (rmB2_sublist_self _) hm8a11
  have hm8aT := not_mem_sublist (pyStripL_sublist _) hm8a12
  have hm9a9 : '；' ∉ mapChar '；' ';' (mapChar '：' ':' (mapChar '，' ',' (mapChar '）' ')' (mapChar '（' '(' (collapseWs X))))) :=
    mapChar_not_mem_self (show ';' ≠ '；' by decide) (mapChar '：' ':' (mapChar '，' ',' (mapChar '）' ')' (mapChar '（' '(' (collapseWs X)))))
  have hm9a10 : '；' ∉ mapChar '、' ',' (mapChar '；' ';' (mapChar '：' ':' (mapChar '，' ',' (mapChar '）' ')' (mapChar '（' '(' (collapseWs X)))))) :=
    mapChar_pres_not_mem (show '；' ≠ ',' by decide) hm9a9
  have hm9a11 := not_mem_sublist (rmB1_sublist_self _) hm9a10
  have hm9a12 := not_mem_sublist (rmB2_sublist_self _) hm9a11
  have hm9aT := not_mem_sublist (pyStripL_sublist _) hm9a12
  have hm10a10 : '、' ∉ mapChar '、' ',' (mapChar '；' ';' (mapChar '：' ':' (mapChar '，' ',' (mapChar '）' ')' (mapChar '（' '(' (collapseWs X)))))) :=
    mapChar_not_mem_self (show ',' ≠ '、' by decide) (mapChar '；' ';' (mapChar '：' ':' (mapChar '，' ',' (mapChar '）' ')' (mapChar '（' '(' (collapseWs X))))))
  have hm10a11 := not_mem_sublist (rmB1_sublist_self _) hm10a10
  have hm10a12 := not_mem_sublist (rmB2_sublist_self _) hm10a11
  have hm10aT := not_mem_sublist (pyStripL_sublist _) hm10a12
  refine ⟨wsOk_sublist (pyStripL_sublist _) hw12, noAdjWs_pyStripL ha12,
    sf1_pyStripL hsfa12, sf2_pyStripL hsfb12, pyStripL_idem _,
    hm5aT, hm6aT, hm7aT, hm8aT, hm9aT, hm10aT⟩

end AnalyzeReports

namespace Claims

open WaterVerif AnalyzeReports

/-- C10: test-method normalization is idempotent — for every input string
`s`, `normalize_method (normalize_method s) = normalize_method s`, so
comparing already-normalized method strings never changes the uniformity
verdict. -/
theorem c10_normalize_method_idem (s : String) :
    normalize_method (normalize_method s) = normalize_method s := by
  obtain ⟨hw, ha, h1, h2, hstrip, m5, m6, m7, m8, m9, m10⟩ :=
    normalize_output_props s
  have key := normalize_pipeline_id hw ha h1 h2 hstrip m5 m6 m7 m8 m9 m10
  calc normalize_method (normalize_method s)
      = ⟨pyStripL (rmB2 (rmB1 (mapChar '、' ',' (mapChar '；' ';' (mapChar '：' ':'
          (mapChar '，' ',' (mapChar '）' ')' (mapChar '（' '(' (collapseWs (mapChar '　' ' '
          (delChar '\r' (mapChar '\n' ' '
          (pyStripL (normalize_method s).data)))))))))))))⟩ := rfl
    _ = ⟨(normalize_method s).data⟩ := by rw [key]
    _ = normalize_method s := rfl

end Claims
